import Mathlib

/-!
Verification of the digidub matching core.

The definitions below are a shallow embedding of the C++ sources
(src/lib/matchalgo.h, src/lib/matchalgo.cpp, src/lib/exporter.cpp,
src/lib/timesegment.h, src/lib/phash.h):

* machine integers (`int64_t` millisecond time stamps, `int` hash
  distances) are modelled as `Int`/`Nat`; `size_t` offsets are modelled
  as `Nat`, and the subtractions that could wrap around in C++ are
  performed with `usub`, which reproduces the mod 2^64 wrap-around;
* `double` values (match scores, speed ratios) are modelled as `ℚ`.
  Every comparison the area matcher performs on such values compares
  two quotients with the same denominator (the pattern size), so the
  idealisation is exact for catalogs of any realistic size;
* `std::vector<Frame>::at` throws on an out-of-range index; the
  embedding reads a default frame instead.  The theorems below either
  carry hypotheses keeping every access in bounds or state properties
  that hold for every value of the frames read.
-/

namespace Digidub

/-- Wrap-around subtraction of C++ `size_t` values (`a - b` mod 2^64). -/
def usub (a b : Nat) : Nat := (((a : Int) - (b : Int)) % ((2 ^ 64 : Nat) : Int)).toNat

/-- Helper for `popCount`: the first argument bounds the number of
halvings, so that the recursion is structural (and hence evaluates
inside the kernel). -/
def popCountAux : Nat → Nat → Nat
  | 0, _ => 0
  | fuel + 1, n => if n = 0 then 0 else n % 2 + popCountAux fuel (n / 2)

/-- Number of set bits in a natural number (`std::popcount`); `n`
halvings always suffice to exhaust `n`. -/
def popCount (n : Nat) : Nat := popCountAux n n

/-- `phashDist` (phash.h): Hamming distance of two 64-bit hashes. -/
def phashDist (a b : Nat) : Nat := popCount (Nat.xor a b)

/-- One catalog frame (struct `MatchAlgo::Frame`): presentation time
stamp, perceptual hash, and the boundary flags that are only computed
for the primary video.  A frame with `scscore > 0` is a scene-change
frame.  (`scFrame` below builds a frame with a given score for the
concrete witnesses.) -/
structure Frame where
  pts : Int
  phash : Nat
  silence : Bool := false
  black : Bool := false
  scscore : ℚ := 0
deriving DecidableEq

instance : Inhabited Frame := ⟨{ pts := 0, phash := 0 }⟩

/-- A frame carrying a scene-change score, for concrete witnesses. -/
def scFrame (q : ℚ) : Frame := { pts := 0, phash := 0, scscore := q }

/-- A view into a frame catalog (`MatchAlgo::FrameSpan`).  The C++
object stores a pointer to its `Video`; here the catalog (its frame
list) is passed explicitly to the operations that consult it. -/
structure FrameSpan where
  first : Nat
  count : Nat
deriving DecidableEq

instance : Inhabited FrameSpan := ⟨⟨0, 0⟩⟩

/-- The clamping `FrameSpan(v, offset, n)` constructor (matchalgo.h,
lines 78-85): `first` is clamped to the catalog size and `count` to
what remains after `first`. -/
def mkFrameSpan (video : List Frame) (offset n : Nat) : FrameSpan :=
  let f := min offset video.length
  { first := f, count := min n (video.length - f) }

namespace FrameSpan

/-- `FrameSpan::size`. -/
def size (s : FrameSpan) : Nat := s.count

/-- `FrameSpan::startOffset`. -/
def startOffset (s : FrameSpan) : Nat := s.first

/-- `FrameSpan::endOffset`. -/
def endOffset (s : FrameSpan) : Nat := s.first + s.count

/-- `FrameSpan::at`: reads `video->frames.at(first + i)`.  Where the
C++ call would throw `std::out_of_range` the embedding reads a default
frame. -/
def frameAt (video : List Frame) (s : FrameSpan) (i : Nat) : Frame :=
  video.getD (s.first + i) default

/-- `FrameSpan::moveStartOffsetTo` (asserts `dest <= endOffset()` in
debug builds; the subtraction wraps around in a release build). -/
def moveStartOffsetTo (s : FrameSpan) (dest : Nat) : FrameSpan :=
  { first := dest, count := usub s.endOffset dest }

/-- `FrameSpan::moveEndOffset` (asserts `dest > first` in debug
builds). -/
def moveEndOffset (s : FrameSpan) (dest : Nat) : FrameSpan :=
  { s with count := usub dest s.first }

/-- `FrameSpan::widenLeft`. -/
def widenLeft (s : FrameSpan) (num : Nat) : FrameSpan :=
  let n := min s.first num
  { first := s.first - n, count := s.count + n }

/-- `FrameSpan::trimLeft`. -/
def trimLeft (s : FrameSpan) (num : Nat) : FrameSpan :=
  let n := min num s.count
  { first := s.first + n, count := s.count - n }

/-- `FrameSpan::left`. -/
def left (s : FrameSpan) (num : Nat) : FrameSpan :=
  if s.size ≤ num then s else { s with count := num }

/-- `FrameSpan::right`. -/
def right (s : FrameSpan) (num : Nat) : FrameSpan :=
  if s.size ≤ num then s else { first := s.endOffset - num, count := num }

/-- `FrameSpan::subspan` (goes through the clamping constructor). -/
def subspan (video : List Frame) (s : FrameSpan) (offset n : Nat) : FrameSpan :=
  mkFrameSpan video (s.first + offset) n

/-- `FrameSpan::contains` (for two spans over the same catalog; the
C++ code additionally compares the catalog pointers, which are equal
by construction here). -/
def contains (s other : FrameSpan) : Bool :=
  decide (s.startOffset ≤ other.startOffset) && decide (other.endOffset ≤ s.endOffset)

end FrameSpan

/-- `MatchAlgo::merge` (matchalgo.cpp, lines 419-427): order the two
spans by start offset, then span from the earlier start to the end of
the later-starting span. -/
def merge (video : List Frame) (a b : FrameSpan) : FrameSpan :=
  let p := if b.startOffset < a.startOffset then (b, a) else (a, b)
  mkFrameSpan video p.1.startOffset (usub p.2.endOffset p.1.startOffset)

/-! ### Border silencing -/

/-- Mark the frames strictly before index `j` silent
(`std::for_each(frames.begin(), it, silence_frame)`). -/
def markSilentBefore (frames : List Frame) (j : Nat) : List Frame :=
  frames.mapIdx (fun i f => if i < j then { f with silence := true } else f)

/-- Mark the frames strictly after index `j` silent (the
`std::for_each(frames.rbegin(), it, silence_frame)` of the second
phase, expressed with forward indices). -/
def markSilentAfter (frames : List Frame) (j : Nat) : List Frame :=
  frames.mapIdx (fun i f => if j < i then { f with silence := true } else f)

/-- The first phase of `silenceborders` (matchalgo.cpp, lines
100-110): search the scan range `[begin, begin + n)` for a silent
frame; when one is found, silence every frame before it. -/
def silencebordersFront (frames : List Frame) (n : Nat) : List Frame :=
  match (List.range n).find? (fun i => (frames.getD i default).silence) with
  | none => frames
  | some j => markSilentBefore frames j

/-- The second phase of `silenceborders` (matchalgo.cpp, lines
112-122): the same scan over the reversed sequence, i.e. over indices
`length - 1 - k` for `k < n`. -/
def silencebordersBack (frames : List Frame) (n : Nat) : List Frame :=
  match (List.range n).find?
      (fun k => (frames.getD (frames.length - 1 - k) default).silence) with
  | none => frames
  | some k => markSilentAfter frames (frames.length - 1 - k)

/-- `silenceborders` (matchalgo.cpp, lines 96-123).  Both scan ranges
are built as `begin + n` and `rbegin + n` before any dereference, so
when the catalog holds fewer than `n` frames the ranges extend past
the frame array and the behaviour is undefined; the embedding returns
`none` in that case.  `MatchDetector::run` invokes the function on the
primary catalog with the default `n = 10`. -/
def silenceborders (frames : List Frame) (n : Nat) : Option (List Frame) :=
  if frames.length < n then none
  else some (silencebordersBack (silencebordersFront frames n) n)

/-! ### The segment extractor -/

/-- `is_sc_frame` (matchalgo.cpp, lines 221-224). -/
def is_sc_frame (f : Frame) : Bool := decide (0 < f.scscore)

/-- Loop of `find_silence_end` (matchalgo.cpp, lines 226-235): skip
silent frames.  `fuel` bounds the remaining iterations; the loop
increments `i` while `i < size`, so `size - i` iterations always
suffice. -/
def find_silence_end_loop (video : List Frame) (frames : FrameSpan) : Nat → Nat → Nat
  | 0, i => i
  | fuel + 1, i =>
    if i < frames.size ∧ (frames.frameAt video i).silence = true then
      find_silence_end_loop video frames fuel (i + 1)
    else i

/-- `find_silence_end` (matchalgo.cpp, lines 226-235). -/
def find_silence_end (video : List Frame) (frames : FrameSpan) (i : Nat) : Nat :=
  find_silence_end_loop video frames (frames.size - i) i

/-- Second loop of `find_next_silence` (matchalgo.cpp, lines 242-246):
advance to the next silent frame. -/
def find_next_silence_loop (video : List Frame) (frames : FrameSpan) : Nat → Nat → Nat
  | 0, i => i
  | fuel + 1, i =>
    if i < frames.size ∧ ¬ (frames.frameAt video i).silence = true then
      find_next_silence_loop video frames fuel (i + 1)
    else i

/-- `find_next_silence` (matchalgo.cpp, lines 237-249): first get out
of any current silence, then go to the next silent frame. -/
def find_next_silence (video : List Frame) (frames : FrameSpan) (start : Nat) : Nat :=
  find_next_silence_loop video frames
    (frames.size - find_silence_end video frames start)
    (find_silence_end video frames start)

/-- Loop of `find_next_blackframe` (matchalgo.cpp, lines 253-265). -/
def find_next_blackframe_loop (video : List Frame) (frames : FrameSpan) : Nat → Nat → Nat
  | 0, i => i
  | fuel + 1, i =>
    if i < frames.size then
      if (frames.frameAt video i).black = true then i
      else find_next_blackframe_loop video frames fuel (i + 1)
    else i

/-- `find_next_blackframe` (matchalgo.cpp, lines 251-268); the scan
starts at `start + 1`. -/
def find_next_blackframe (video : List Frame) (frames : FrameSpan) (start : Nat) : Nat :=
  find_next_blackframe_loop video frames (frames.size - (start + 1)) (start + 1)

/-- Loop of `find_next_scframe` (matchalgo.cpp, lines 272-285). -/
def find_next_scframe_loop (video : List Frame) (frames : FrameSpan) : Nat → Nat → Nat
  | 0, i => i
  | fuel + 1, i =>
    if i < frames.size then
      if is_sc_frame (frames.frameAt video i) = true then i
      else find_next_scframe_loop video frames fuel (i + 1)
    else i

/-- `find_next_scframe` (matchalgo.cpp, lines 270-287); the scan
starts at `start + 1`. -/
def find_next_scframe (video : List Frame) (frames : FrameSpan) (start : Nat) : Nat :=
  find_next_scframe_loop video frames (frames.size - (start + 1)) (start + 1)

/-- Loop of `find_segment_end` (matchalgo.cpp, lines 294-319).  In the
non-break branch `segend` advances to the next silence, which is
always strictly ahead, so `size - segend` iterations suffice. -/
def find_segment_end_loop (video : List Frame) (frames : FrameSpan) : Nat → Nat → Nat
  | 0, segend => segend
  | fuel + 1, segend =>
    if segend ≠ frames.size then
      if min (find_next_scframe video frames segend) (find_next_blackframe video frames segend)
          ≤ find_silence_end video frames segend then
        if find_next_scframe video frames segend ≤ find_silence_end video frames segend then
          find_next_scframe video frames segend
        else find_next_blackframe video frames segend
      else
        find_segment_end_loop video frames fuel (find_next_silence video frames segend)
    else segend

/-- `find_segment_end` (matchalgo.cpp, lines 289-322). -/
def find_segment_end (video : List Frame) (frames : FrameSpan) (start : Nat) : Nat :=
  find_segment_end_loop video frames
    (frames.size - find_next_silence video frames start)
    (find_next_silence video frames start)

/-- Loop of `extract_segments` (matchalgo.cpp, lines 328-335).  Each
iteration advances `i` by at least one frame, so `size` iterations
suffice. -/
def extract_segments_loop (video : List Frame) (frames : FrameSpan) : Nat → Nat → List FrameSpan
  | 0, _ => []
  | fuel + 1, i =>
    if i < frames.size then
      frames.subspan video i (find_segment_end video frames i - i) ::
        extract_segments_loop video frames fuel (find_segment_end video frames i)
    else []

/-- `extract_segments` (matchalgo.cpp, lines 324-338). -/
def extract_segments (video : List Frame) (frames : FrameSpan) : List FrameSpan :=
  extract_segments_loop video frames frames.size 0

/-- `tiles lo hi l`: the spans of `l`, in order, exactly cover the
offset range `[lo, hi)` with no gaps or overlaps and no empty span. -/
def tiles : Nat → Nat → List FrameSpan → Prop
  | lo, hi, [] => lo = hi
  | lo, hi, s :: rest => s.first = lo ∧ lo < s.endOffset ∧ tiles s.endOffset hi rest

/-! ### The boundary marker's scene merge -/

/-- Write a zero scene-change score into frame `k` (`it->scscore = 0`
in the C++ code). -/
def zeroSc (frames : List Frame) (k : Nat) : List Frame :=
  frames.set k { frames.getD k default with scscore := 0 }

/-- The `std::find_if` part of the `find_next_scene` lambda of
`merge_small_scenes` (matchalgo.cpp, lines 174-181): first index at or
after `i` whose frame has a positive scene-change score, or the
catalog size.  `fuel` bounds the iterations; `length - i` suffice. -/
def find_next_scene_loop (frames : List Frame) : Nat → Nat → Nat
  | 0, i => i
  | fuel + 1, i =>
    if i < frames.length then
      if 0 < (frames.getD i default).scscore then i
      else find_next_scene_loop frames fuel (i + 1)
    else i

/-- The `find_next_scene` lambda of `merge_small_scenes`: if the
current frame is itself a scene-change frame, start looking one frame
later. -/
def find_next_scene (frames : List Frame) (i : Nat) : Nat :=
  if 0 < (frames.getD i default).scscore then
    find_next_scene_loop frames (frames.length - (i + 1)) (i + 1)
  else
    find_next_scene_loop frames (frames.length - i) i

/-- The loop of `merge_small_scenes` (matchalgo.cpp, lines 183-213).
`fuel` bounds the iterations: every iteration either advances the
cursor or zeroes one positive scene score, so
`length + (number of positive scores) + 1` iterations always
suffice. -/
def merge_small_scenes_loop (minSize : Nat) : Nat → List Frame → Nat → List Frame
  | 0, frames, _ => frames
  | fuel + 1, frames, i =>
    if i < frames.length then
      if minSize ≤ find_next_scene frames i - i then
        merge_small_scenes_loop minSize fuel frames (find_next_scene frames i)
      else if find_next_scene frames i = frames.length then
        zeroSc frames i
      else if (frames.getD (find_next_scene frames i) default).scscore <
          (frames.getD i default).scscore then
        merge_small_scenes_loop minSize fuel (zeroSc frames (find_next_scene frames i)) i
      else
        merge_small_scenes_loop minSize fuel (zeroSc frames i) (find_next_scene frames i)
    else frames

/-- The number of frames with a positive scene-change score. -/
def scCount (frames : List Frame) : Nat :=
  frames.countP (fun f => decide (0 < f.scscore))

/-- `merge_small_scenes` (matchalgo.cpp, lines 172-214). -/
def merge_small_scenes (frames : List Frame) (minSize : Nat) : List Frame :=
  merge_small_scenes_loop minSize (frames.length + scCount frames + 1) frames 0

/-- Index `k` holds a scene-change frame of the catalog. -/
def scAt (frames : List Frame) (k : Nat) : Prop :=
  k < frames.length ∧ 0 < (frames.getD k default).scscore

/-- All pairs of consecutive scene-change frames up to `bound` are at
least `minSize` frames apart. -/
def scSpaced (frames : List Frame) (minSize bound : Nat) : Prop :=
  ∀ i j, scAt frames i → scAt frames j → i < j → j ≤ bound →
    (∀ k, i < k → k < j → ¬ scAt frames k) → minSize ≤ j - i

/-! ### The area matcher -/

/-- `MatchingArea` (matchalgo.cpp, lines 340-345); the C++ field
`match` is a Lean keyword, hence the guillemets. -/
structure MatchingArea where
  pattern : FrameSpan
  «match» : FrameSpan
  score : ℚ
deriving DecidableEq

/-- The accumulated per-frame hash distance `dacc` of
`find_best_matching_area_ex` for alignment offset `i`. -/
def dacc (va vb : List Frame) (pattern searchArea : FrameSpan) (i : Nat) : Nat :=
  ∑ j ∈ Finset.range pattern.count,
    phashDist ((pattern.frameAt va j).phash) ((searchArea.frameAt vb (i + j)).phash)

/-- The arithmetic mean `avg = dacc / double(pattern.size())` computed
by `find_best_matching_area_ex` for alignment offset `i`. -/
def meanAt (va vb : List Frame) (pattern searchArea : FrameSpan) (i : Nat) : ℚ :=
  (dacc va vb pattern searchArea i : ℚ) / (pattern.count : ℚ)

/-- The scan loop of `find_best_matching_area_ex` over alignment
offsets `i ≤ imax`, threading `bestavg` and the result being built.
The `fuel` argument counts the remaining iterations (the loop runs
exactly `imax + 1 - i` times), making the recursion structural. -/
def fbmaLoop (va vb : List Frame) (pattern searchArea : FrameSpan) (imax : Nat) :
    Nat → Nat → ℚ → MatchingArea → MatchingArea
  | 0, _, _, res => res
  | fuel + 1, i, bestavg, res =>
    if i ≤ imax then
      if meanAt va vb pattern searchArea i < bestavg then
        fbmaLoop va vb pattern searchArea imax fuel (i + 1) (meanAt va vb pattern searchArea i)
          { res with «match» := searchArea.subspan vb i pattern.count,
                     score := meanAt va vb pattern searchArea i }
      else
        fbmaLoop va vb pattern searchArea imax fuel (i + 1) bestavg res
    else res

/-- `find_best_matching_area_ex` (matchalgo.cpp, lines 347-393). -/
def find_best_matching_area_ex (va vb : List Frame) (pattern searchArea : FrameSpan) :
    MatchingArea :=
  let res0 : MatchingArea :=
    { pattern := pattern,
      «match» := mkFrameSpan vb (searchArea.first + searchArea.count) 0,
      score := 64 }
  if searchArea.size < pattern.size then res0
  else
    fbmaLoop va vb pattern searchArea (searchArea.size - pattern.size)
      (searchArea.size - pattern.size + 1) 0 64 res0

/-! ### Time segments, matches, and the dub assembler -/

/-- `TimeSegment` (timesegment.h): a half-open millisecond interval
stored as two `int64_t` values. -/
structure TimeSegment where
  start : Int := 0
  «end» : Int := 0
deriving DecidableEq

/-- `TimeSegment::duration`. -/
def TimeSegment.duration (s : TimeSegment) : Int := s.«end» - s.start

/-- `VideoMatch` (match.h): a primary-video segment `a` matched with a
secondary-video segment `b`. -/
structure VideoMatch where
  a : TimeSegment
  b : TimeSegment
deriving DecidableEq

/-- `OutputSegment` (exporter.h). -/
structure OutputSegment where
  output_segment : TimeSegment
  source_id : Int
  source_segment : TimeSegment
deriving DecidableEq

/-- The per-match loop of `dubCompute` (exporter.cpp, lines 18-47):
walks the matches emitting output segments while threading the
primary-timeline cursor `curtime`; returns the emitted segments and
the final cursor. -/
def dubComputeLoop (curtime : Int) : List VideoMatch → List OutputSegment × Int
  | [] => ([], curtime)
  | m :: rest =>
    let gapSegs : List OutputSegment :=
      if curtime < m.a.start then
        [{ output_segment := ⟨curtime, m.a.start⟩, source_id := 0,
           source_segment := ⟨curtime, m.a.start⟩ }]
      else []
    let t := if curtime < m.a.start then m.a.start else curtime
    if m.a.duration = 0 then
      let r := dubComputeLoop t rest
      (gapSegs ++ r.1, r.2)
    else
      let r := dubComputeLoop m.a.«end» rest
      (gapSegs ++ ({ output_segment := m.a, source_id := 1, source_segment := m.b } :: r.1),
       r.2)

/-- `dubCompute` (exporter.cpp, lines 13-62); `ms` is the `matches`
argument of the C++ function. -/
def dubCompute (ms : List VideoMatch) (mediaDuration : Int) : List OutputSegment :=
  let r := dubComputeLoop 0 ms
  if r.2 < mediaDuration then
    r.1 ++ [{ output_segment := ⟨r.2, mediaDuration⟩, source_id := 0,
              source_segment := ⟨r.2, mediaDuration⟩ }]
  else r.1

/-- `segChain lo hi l`: the output segments of `l`, in order, chain
from time `lo` to time `hi`: the first starts at `lo`, each next one
starts where the previous ends, and the last ends at `hi`. -/
def segChain : Int → Int → List OutputSegment → Prop
  | lo, hi, [] => lo = hi
  | lo, hi, s :: rest => s.output_segment.start = lo ∧ segChain s.output_segment.«end» hi rest

/-! ### The matching orchestrator (`find_matches`) and its helpers

The functions below embed `find_best_subspan_match`, its helpers, and
`find_matches` (matchalgo.cpp, lines 402-524, 527-765, 767-1145 and
1164-1195).  `double` arithmetic is modelled over `ℚ` (the C++
literals `0.95`/`1.05` become the exact rationals; the double values
differ from them by less than `2⁻⁵⁰`, which can only shift a
secondary-video search window built from them by a frame).  `size_t`
subtractions that can wrap do so through `usub`; the handful of
`size_t` additions (search-window widening in `extend_match`) are kept
as exact naturals — they match the C++ values whenever the catalogs
hold fewer than `2⁶²` frames, which the orchestrator theorem assumes.
Loops are given explicit fuel counting their iteration bound; where
the C++ loop would not terminate (which requires a rematch threshold
of at least 64, see `find_best_match`), the fuel runs out and the
current loop state is returned. -/

/-- `Parameters` (matchalgo.h, lines 34-40). -/
structure Parameters where
  frameUnmatchThreshold : Int := 21
  frameRematchThreshold : Int := 16
  areaMatchThreshold : ℚ := 20
  scdetThreshold : ℚ := 0

/-- `std::round` (rounds half away from zero) on rationals. -/
def cppRound (q : ℚ) : Int := if 0 ≤ q then ⌊q + 1 / 2⌋ else -⌊1 / 2 - q⌋

/-- `std::ceil` on rationals. -/
def cppCeil (q : ℚ) : Int := ⌈q⌉

/-- `std::floor` on rationals. -/
def cppFloor (q : ℚ) : Int := ⌊q⌋

/-- Loop of `split_at_scframes` (matchalgo.cpp, lines 406-414).  Each
iteration advances `i` by at least one frame, so `span.size`
iterations suffice. -/
def split_at_scframes_loop (video : List Frame) (span : FrameSpan) :
    Nat → Nat → List FrameSpan
  | 0, _ => []
  | fuel + 1, i =>
    if i < span.size then
      let j := min (find_next_scframe video span i) span.size
      span.subspan video i (j - i) :: split_at_scframes_loop video span fuel j
    else []

/-- `split_at_scframes` (matchalgo.cpp, lines 402-417). -/
def split_at_scframes (video : List Frame) (span : FrameSpan) : List FrameSpan :=
  split_at_scframes_loop video span span.size 0

/-- `compute_symetric_span_around_keyframe` (matchalgo.cpp, lines
527-540); every call site passes `n = 5` explicitly. -/
def compute_symetric_span_around_keyframe (a b : FrameSpan) (n : Nat) : FrameSpan :=
  let m := min (min n a.size) b.size
  FrameSpan.widenLeft { b with count := m } m

/-- `starts_with_black_frames` (matchalgo.cpp, lines 542-565). -/
def starts_with_black_frames (video : List Frame) (span : FrameSpan) : Bool :=
  if span.size = 0 then false
  else if (span.frameAt video 0).black then true
  else if 0 < span.startOffset then (video.getD (span.startOffset - 1) default).black
  else false

/-- `ends_with_black_frames` (matchalgo.cpp, lines 567-590). -/
def ends_with_black_frames (video : List Frame) (span : FrameSpan) : Bool :=
  if span.size = 0 then false
  else if (span.frameAt video (span.size - 1)).black then true
  else if span.endOffset < video.length then (video.getD span.endOffset default).black
  else false

/-- `likely_same_scene` (matchalgo.cpp, lines 592-600): `a` is a span
of `va`, `b` a span of `vb`; a C++ `FrameSpan` carries its video, so
swapping the spans swaps the videos along with them. -/
def likely_same_scene (va vb : List Frame) (a b : FrameSpan) (threshold : ℚ) : Bool :=
  if b.size < a.size then
    decide ((find_best_matching_area_ex vb va b a).score ≤ threshold)
  else
    decide ((find_best_matching_area_ex va vb a b).score ≤ threshold)

/-- `number_of_frames_in_range` (matchalgo.cpp, lines 602-608). -/
def number_of_frames_in_range (l : List FrameSpan) : Nat :=
  l.foldl (fun n e => n + e.size) 0

/-- The body of the double scan of `find_best_match` at indices
`(x, y)`, threading `(bestd, bestx, besty)`.  `bestx`/`besty` start
out as `size_t(-1)`; the C++ tie-break compares them through `int`
casts and the final result adds them to an offset as `size_t`, so they
are carried as integers with `-1` for the initial value. -/
def fbmStep (va vb : List Frame) (a b : FrameSpan) (st : Int × Int × Int) (x y : Nat) :
    Int × Int × Int :=
  let d : Int := phashDist ((a.frameAt va x).phash) ((b.frameAt vb y).phash)
  if d < st.1 then (d, (x : Int), (y : Int))
  else if d = st.1 ∧ |(x : Int) - (y : Int)| < |st.2.1 - st.2.2| then (st.1, (x : Int), (y : Int))
  else st

/-- `find_best_match` (matchalgo.cpp, lines 610-648).  When the scan
never improves on the initial distance 64, `bestx`/`besty` keep the
value `-1` and the returned offsets wrap around as `size_t`
arithmetic. -/
def find_best_match (va vb : List Frame) (a b : FrameSpan) (matchThreshold : Int) :
    Option (Nat × Nat) :=
  let st := (List.range a.size).foldl
    (fun st x => (List.range b.size).foldl (fun st y => fbmStep va vb a b st x y) st)
    ((64 : Int), (-1 : Int), (-1 : Int))
  if st.1 ≤ matchThreshold then
    some ((((a.startOffset : Int) + st.2.1) % ((2 ^ 64 : Nat) : Int)).toNat,
          (((b.startOffset : Int) + st.2.2) % ((2 ^ 64 : Nat) : Int)).toNat)
  else none

/-- Loop of `find_match_end` (matchalgo.cpp, lines 663-693).  The
`double` comparison `std::round(jreal + speed) < j_end` compares two
integer-valued quantities, hence the integer comparison; the
`double`-to-`size_t` conversion of the rounded value truncates a
negative value to `0` here (in C++ it is undefined). -/
def find_match_end_loop (va vb : List Frame) (params : Parameters) (speed : ℚ)
    (i_end j_end : Nat) : Nat → Nat → Nat → ℚ → Nat × Nat
  | 0, i, j, _ => (i, j)
  | fuel + 1, i, j, jreal =>
    if i + 1 < i_end ∧ cppRound (jreal + speed) < (j_end : Int) then
      let next_frame_a := i + 1
      let next_frame_b := (cppRound (jreal + speed)).toNat
      let diff : Int := phashDist ((va.getD next_frame_a default).phash)
        ((vb.getD next_frame_b default).phash)
      if diff < params.frameUnmatchThreshold then
        find_match_end_loop va vb params speed i_end j_end fuel next_frame_a next_frame_b
          (jreal + speed)
      else
        let span1 := (mkFrameSpan va next_frame_a (usub i_end next_frame_a)).left 4
        let span2 := (mkFrameSpan vb next_frame_b (usub j_end next_frame_b)).left 4
        match find_best_match va vb span1 span2 params.frameRematchThreshold with
        | none => (i, j)
        | some (x, y) =>
          find_match_end_loop va vb params speed i_end j_end fuel x y ((y : Nat) : ℚ)
    else (i, j)

/-- `find_match_end` (matchalgo.cpp, lines 650-707): the loop followed
by the final one-missing-frame adjustment. -/
def find_match_end (va vb : List Frame) (i j : Nat) (speed : ℚ) (i_end j_end : Nat)
    (params : Parameters) : Nat × Nat :=
  let p := find_match_end_loop va vb params speed i_end j_end (i_end + 1) i j ((j : ℚ))
  let p2 := if p.1 + 1 + 1 = i_end then
      if (phashDist ((va.getD (p.1 + 1) default).phash) ((vb.getD p.2 default).phash) : Int)
          < params.frameUnmatchThreshold then (p.1 + 1, p.2) else p
    else p
  (p2.1 + 1, p2.2 + 1)

/-- Loop of `find_match_end_backward` (matchalgo.cpp, lines 720-751). -/
def find_match_end_backward_loop (va vb : List Frame) (params : Parameters) (speed : ℚ)
    (i_min j_min : Nat) : Nat → Nat → Nat → ℚ → Nat × Nat
  | 0, i, j, _ => (i, j)
  | fuel + 1, i, j, jreal =>
    if i_min < i ∧ (j_min : Int) ≤ cppRound (jreal - speed) then
      let prev_frame_a := i - 1
      let prev_frame_b := (cppRound (jreal - speed)).toNat
      let diff : Int := phashDist ((va.getD prev_frame_a default).phash)
        ((vb.getD prev_frame_b default).phash)
      if diff < params.frameUnmatchThreshold then
        find_match_end_backward_loop va vb params speed i_min j_min fuel prev_frame_a
          prev_frame_b (jreal - speed)
      else
        let span1 := (mkFrameSpan va i_min (usub i i_min)).right 4
        let span2 := (mkFrameSpan vb j_min (usub j j_min)).right 4
        match find_best_match va vb span1 span2 params.frameRematchThreshold with
        | none => (i, j)
        | some (x, y) =>
          find_match_end_backward_loop va vb params speed i_min j_min fuel x y ((y : Nat) : ℚ)
    else (i, j)

/-- `find_match_end_backward` (matchalgo.cpp, lines 709-765). -/
def find_match_end_backward (va vb : List Frame) (i j : Nat) (speed : ℚ)
    (i_min j_min : Nat) (params : Parameters) : Nat × Nat :=
  let p := find_match_end_backward_loop va vb params speed i_min j_min (i + 1) i j ((j : ℚ))
  if p.1 = i_min + 1 then
    if (phashDist ((va.getD i_min default).phash) ((vb.getD p.2 default).phash) : Int)
        < params.frameUnmatchThreshold then (i_min, p.2) else p
  else p

/-- The search-window widening at the top of each `extend_match`
iteration (matchalgo.cpp, lines 443-456): the ideal window after the
previous match, widened by the allowances for skipped or extra frames
and clipped to the overall search-area end. -/
def extend_search_area (vb : List Frame) (prev : FrameSpan × FrameSpan)
    (current_pattern : FrameSpan) (searchAreaEnd : Nat) : FrameSpan :=
  let sa0 := mkFrameSpan vb prev.2.endOffset current_pattern.size
  let prev_pattern_extra := max (prev.1.count / 20) 3
  let sa1 : FrameSpan := { first := sa0.first - min prev_pattern_extra sa0.first,
                           count := sa0.count + 2 * prev_pattern_extra }
  let sa2 : FrameSpan := { sa1 with count := sa1.count + max (current_pattern.size / 20) 3 }
  if searchAreaEnd < sa2.endOffset then
    { sa2 with count := usub searchAreaEnd sa2.first }
  else sa2

/-- `extend_match` (matchalgo.cpp, lines 429-524), recursing over the
remaining inter-keyframe spans.  The C++ function returns the iterator
where the extension stopped together with the last secondary-video
match; here the consumed spans, the unconsumed suffix and that last
match are returned (the iterator is exactly the boundary between the
two lists).  The debug-build `assert` on line 508 is ignored. -/
def extend_match (va vb : List Frame) (params : Parameters) (searchAreaEnd : Nat) :
    List FrameSpan → FrameSpan × FrameSpan → List FrameSpan × List FrameSpan × FrameSpan
  | [], prev => ([], [], prev.2)
  | current_pattern :: rest, prev =>
    let sa3 := extend_search_area vb prev current_pattern searchAreaEnd
    if sa3.size < current_pattern.size then ([], current_pattern :: rest, prev.2)
    else
      let m := find_best_matching_area_ex va vb current_pattern sa3
      if params.areaMatchThreshold < m.score then ([], current_pattern :: rest, prev.2)
      else
        let mm :=
          if m.«match».startOffset ≠ prev.2.endOffset then
            let mc0 := merge vb prev.2 m.«match»
            let mc :=
              if m.«match».startOffset < prev.2.endOffset then
                let diff := prev.2.endOffset - m.«match».startOffset
                let w := mc0.widenLeft diff
                { w with count := w.count + diff }
              else mc0
            let pcr : FrameSpan × Nat × Nat :=
              if prev.1.size ≤ current_pattern.size then
                let removed := current_pattern.size - prev.1.size
                let pc : FrameSpan := { current_pattern with
                  count := current_pattern.count - removed }
                (merge va prev.1 pc, prev.1.size, removed)
              else
                let sizediff := prev.1.size - current_pattern.size
                let pc : FrameSpan := { first := prev.1.first + sizediff,
                                        count := prev.1.count - sizediff }
                (merge va pc current_pattern, pc.size, 0)
            let refined := find_best_matching_area_ex va vb pcr.1 mc
            let rm := refined.«match».trimLeft pcr.2.1
            let rm2 : FrameSpan := { rm with count := rm.count + pcr.2.2 }
            if rm2.startOffset ≠ m.«match».startOffset then rm2 else m.«match»
          else m.«match»
        let r := extend_match va vb params searchAreaEnd rest (current_pattern, mm)
        (current_pattern :: r.1, r.2.1, r.2.2)

/-- The forward scene-absorption loop of `refine_match_2scenes`
(matchalgo.cpp, lines 815-825): absorb secondary-video scenes while
each likely matches the pattern scene, stopping at the first that does
not. -/
def absorb_scenes_forward (va vb : List Frame) (pat : FrameSpan) (threshold : ℚ) :
    List FrameSpan → FrameSpan → FrameSpan
  | [], rm => rm
  | sp :: rest, rm =>
    if likely_same_scene va vb pat sp threshold then
      absorb_scenes_forward va vb pat threshold rest (rm.moveEndOffset sp.endOffset)
    else rm

/-- The backward scene-absorption loop of `refine_match_2scenes`
(matchalgo.cpp, lines 853-863), fed with the reversed scene list. -/
def absorb_scenes_backward (va vb : List Frame) (pat : FrameSpan) (threshold : ℚ) :
    List FrameSpan → FrameSpan → FrameSpan
  | [], rm => rm
  | sp :: rest, rm =>
    if likely_same_scene va vb pat sp threshold then
      absorb_scenes_backward va vb pat threshold rest (rm.moveStartOffsetTo sp.startOffset)
    else rm

/-- The speed-directed extension block closing `refine_match_2scenes`
(matchalgo.cpp, lines 878-907): extend the refined pair backward if
the pattern starts with black frames and then forward if it ends with
black frames. -/
def refine_extend_both_ends (va vb : List Frame) (params : Parameters) (speed : ℚ)
    (vid1_sc vid2_sc : Nat) (rp rm fullSearchArea : FrameSpan) : FrameSpan × FrameSpan :=
  let p1 : FrameSpan × FrameSpan :=
    if starts_with_black_frames va rp then
      let r := find_match_end_backward va vb (usub vid1_sc 1) (usub vid2_sc 1) speed
        rp.startOffset fullSearchArea.startOffset params
      (rp.moveStartOffsetTo r.1, rm.moveStartOffsetTo r.2)
    else (rp, rm)
  if ends_with_black_frames va p1.1 then
    let r := find_match_end va vb vid1_sc vid2_sc speed p1.1.endOffset
      fullSearchArea.endOffset params
    (p1.1.moveEndOffset r.1, p1.2.moveEndOffset r.2)
  else p1

/-- The forward speed-estimation block of `refine_match_2scenes`
(matchalgo.cpp, lines 804-838): when the pattern does not end with
black frames, absorb matching secondary-video scenes ahead of the
match and estimate the speed from the extended end.  Returns the
`speed` optional and the current `refined_match`. -/
def estimate_speed_forward (va vb : List Frame) (dA dB : ℚ) (params : Parameters)
    (s1 basepattern basematch : FrameSpan) (vid1_sc vid2_sc : Nat) :
    Option ℚ × FrameSpan :=
  if ends_with_black_frames va basepattern then (none, basematch)
  else
    let nb2 := s1.size
    let lo := cppCeil ((nb2 : ℚ) * (95 / 100))
    let hi := cppFloor ((nb2 : ℚ) * (105 / 100))
    let search_span := mkFrameSpan vb (vid2_sc + lo.toNat) (hi - lo).toNat
    let rm := absorb_scenes_forward va vb s1 params.areaMatchThreshold
      (split_at_scframes vb search_span) basematch
    (some (((usub rm.endOffset vid2_sc : Nat) : ℚ) * dB /
      (((usub basepattern.endOffset vid1_sc : Nat) : ℚ) * dA)), rm)

/-- The backward speed-estimation block of `refine_match_2scenes`
(matchalgo.cpp, lines 840-876); `st1` is the state produced by the
forward block (the C++ compares the absorbed scenes against
`*std::next(it)`, i.e. `s1`, here too). -/
def estimate_speed_backward (va vb : List Frame) (dA dB : ℚ) (params : Parameters)
    (s0 s1 basepattern : FrameSpan) (vid1_sc vid2_sc : Nat)
    (st1 : Option ℚ × FrameSpan) : Option ℚ × FrameSpan :=
  if starts_with_black_frames va basepattern then st1
  else
    let nb1 := s0.size
    let lo := cppCeil ((nb1 : ℚ) * (95 / 100))
    let hi := cppFloor ((nb1 : ℚ) * (105 / 100))
    let search_span := mkFrameSpan vb (usub (usub vid2_sc 1) hi.toNat) (hi - lo).toNat
    let rm := absorb_scenes_backward va vb s1 params.areaMatchThreshold
      (split_at_scframes vb search_span).reverse st1.2
    (some (((usub vid2_sc rm.startOffset : Nat) : ℚ) * dB /
      (((usub vid1_sc basepattern.startOffset : Nat) : ℚ) * dA)), rm)

/-- `refine_match_2scenes` (matchalgo.cpp, lines 767-910): `s0`, `s1`
are `*it` and `*std::next(it)`.  The first component of the
speed-estimation state is the `speed` optional, the second the current
`refined_match`; `refined_pattern` stays `basepattern` until the final
speed-directed extension block `refine_extend_both_ends`. -/
def refine_match_2scenes (va vb : List Frame) (dA dB : ℚ) (params : Parameters)
    (s0 s1 basematch fullSearchArea : FrameSpan) : FrameSpan × FrameSpan :=
  let basepattern := merge va s0 s1
  let ftst := compute_symetric_span_around_keyframe s0 s1 5
  let lm := find_best_matching_area_ex va vb ftst basematch
  let vid1_sc := lm.pattern.startOffset + lm.pattern.size / 2
  let vid2_sc := lm.«match».startOffset + lm.«match».size / 2
  let st2 := estimate_speed_backward va vb dA dB params s0 s1 basepattern vid1_sc vid2_sc
    (estimate_speed_forward va vb dA dB params s1 basepattern basematch vid1_sc vid2_sc)
  match st2.1 with
  | none => (basepattern, st2.2)
  | some speed =>
    refine_extend_both_ends va vb params speed vid1_sc vid2_sc basepattern st2.2
      fullSearchArea

/-- `refine_match` (matchalgo.cpp, lines 912-1030) over the scene list
`[begin, end)` (non-empty at every call site; the `headD`/`getLastD`
defaults are never consulted then). -/
def refine_match (va vb : List Frame) (dA dB : ℚ) (params : Parameters)
    (scenes : List FrameSpan) (basematch fullSearchArea : FrameSpan) :
    FrameSpan × FrameSpan :=
  let s0 := scenes.headD default
  let basepattern := merge va s0 (scenes.getLastD default)
  if scenes.length < 3 then
    if scenes.length = 2 then
      refine_match_2scenes va vb dA dB params s0 (scenes.getD 1 default) basematch
        fullSearchArea
    else (basepattern, basematch)
  else
    let ftst1 := compute_symetric_span_around_keyframe s0 (scenes.getD 1 default) 5
    let sas1 := number_of_frames_in_range (scenes.take 3)
    let lm1 := find_best_matching_area_ex va vb ftst1 (basematch.left sas1)
    let vid1_first_sc := lm1.pattern.startOffset + lm1.pattern.size / 2
    let vid2_first_sc := lm1.«match».startOffset + lm1.«match».size / 2
    let ftst2 := compute_symetric_span_around_keyframe
      (scenes.getD (scenes.length - 2) default) (scenes.getLastD default) 5
    let sas2 := number_of_frames_in_range (scenes.drop (scenes.length - 3))
    let lm2 := find_best_matching_area_ex va vb ftst2 (basematch.right sas2)
    let vid1_last_sc := lm2.pattern.startOffset + lm2.pattern.size / 2
    let vid2_last_sc := lm2.«match».startOffset + lm2.«match».size / 2
    let speed := ((usub vid2_last_sc vid2_first_sc : Nat) : ℚ) * dB /
      (((usub vid1_last_sc vid1_first_sc : Nat) : ℚ) * dA)
    let re := find_match_end va vb vid1_last_sc vid2_last_sc speed
      basepattern.endOffset fullSearchArea.endOffset params
    let rp1 := basepattern.moveEndOffset re.1
    let rm1 := basematch.moveEndOffset re.2
    let rs := find_match_end_backward va vb (usub vid1_first_sc 1) (usub vid2_first_sc 1)
      speed rp1.startOffset fullSearchArea.startOffset params
    (rp1.moveStartOffsetTo rs.1, rm1.moveStartOffsetTo rs.2)

/-- The candidate match computed at the top of each
`find_best_subspan_match` iteration (matchalgo.cpp, lines 1067-1090):
when another scene span follows, the pattern is extended up to its end
for the area search and the extra frames are subtracted from the
result afterwards (`size_t` subtractions). -/
def fbsm_candidate (va vb : List Frame) (searchArea cur : FrameSpan) :
    List FrameSpan → MatchingArea
  | [] => find_best_matching_area_ex va vb cur searchArea
  | nxt :: _ =>
    let extended := mkFrameSpan va cur.startOffset (usub nxt.endOffset cur.startOffset)
    let m0 := find_best_matching_area_ex va vb extended searchArea
    { m0 with pattern := { m0.pattern with count := usub m0.pattern.count nxt.size },
              «match» := { m0.«match» with count := usub m0.«match».count nxt.size } }

/-- Loop of `find_best_subspan_match` over the scene spans of the
pattern segment (matchalgo.cpp, lines 1049-1142), threading the best
`(pattern, match)` pair found so far.  Every iteration moves past at
least the current scene span, so `patspans.length` iterations
suffice. -/
def fbsmLoop (va vb : List Frame) (dA dB : ℚ) (params : Parameters)
    (searchArea : FrameSpan) : Nat → List FrameSpan → FrameSpan × FrameSpan →
    FrameSpan × FrameSpan
  | 0, _, result => result
  | _ + 1, [], result => result
  | fuel + 1, cur :: rest, result =>
    if number_of_frames_in_range (cur :: rest) < result.1.size then result
    else
      let m := fbsm_candidate va vb searchArea cur rest
      if params.areaMatchThreshold < m.score then
        fbsmLoop va vb dA dB params searchArea fuel rest result
      else
        let e := extend_match va vb params searchArea.endOffset rest (m.pattern, m.«match»)
        let mm : FrameSpan := { m.«match» with
          count := usub e.2.2.endOffset m.«match».startOffset }
        let r := refine_match va vb dA dB params (cur :: e.1) mm searchArea
        let result2 := if result.1.count < r.1.count then r else result
        fbsmLoop va vb dA dB params searchArea fuel e.2.1 result2

/-- `find_best_subspan_match` (matchalgo.cpp, lines 1032-1145). -/
def find_best_subspan_match (va vb : List Frame) (dA dB : ℚ) (params : Parameters)
    (pattern searchArea : FrameSpan) : FrameSpan × FrameSpan :=
  let patspans := split_at_scframes va pattern
  fbsmLoop va vb dA dB params searchArea (patspans.length + 1) patspans (default, default)

/-- `get_nth_frame_pts` (matchalgo.cpp, lines 13-16): past the last
frame, one more than the last frame's pts (for an empty catalog the
C++ `back()` is undefined; the embedding reads a default frame). -/
def get_nth_frame_pts (video : List Frame) (n : Nat) : Int :=
  if n < video.length then (video.getD n default).pts
  else (video.getLastD default).pts + 1

/-- `to_timesegment` (matchalgo.cpp, lines 1147-1154); `delta` is the
video's `frameDelta` (seconds per pts tick). -/
def to_timesegment (video : List Frame) (delta : ℚ) (span : FrameSpan) : TimeSegment :=
  { start := cppRound ((get_nth_frame_pts video span.first : ℚ) * delta * 1000),
    «end» := cppRound ((get_nth_frame_pts video (span.first + span.count) : ℚ) * delta * 1000) }

/-- `to_match` (matchalgo.cpp, lines 1156-1162). -/
def to_match (va vb : List Frame) (dA dB : ℚ) (m : FrameSpan × FrameSpan) : VideoMatch :=
  { a := to_timesegment va dA m.1, b := to_timesegment vb dB m.2 }

/-- The per-segment loop of `find_matches` (matchalgo.cpp, lines
1179-1192), threading the secondary-video search cursor.  The `-1`
count of the refreshed cursor is `size_t(-1) = 2^64 - 1` (the
constructor clamps it). -/
def find_matches_loop (va vb : List Frame) (dA dB : ℚ) (params : Parameters) :
    List FrameSpan → FrameSpan → List VideoMatch
  | [], _ => []
  | segment :: rest, search_area =>
    let ms := find_best_subspan_match va vb dA dB params segment search_area
    if 0 < ms.1.count then
      to_match va vb dA dB ms ::
        find_matches_loop va vb dA dB params rest (mkFrameSpan vb ms.2.endOffset (2 ^ 64 - 1))
    else find_matches_loop va vb dA dB params rest search_area

/-- `find_matches` (matchalgo.cpp, lines 1164-1195). -/
def find_matches (va vb : List Frame) (dA dB : ℚ) (params : Parameters)
    (a b : FrameSpan) : List VideoMatch :=
  find_matches_loop va vb dA dB params (extract_segments va a) b

/-- A ten-frame catalog of default frames, used for the C7
counterexample. -/
def tenFrames : List Frame := List.replicate 10 default

/-- What holds of the result of the `find_best_matching_area_ex` scan
over the alignment offsets `0..imax`: either no offset beat the
initial `bestavg = 64` and the sentinel result survived, or the result
records the first offset attaining the minimal mean distance. -/
def fbmaPost (va vb : List Frame) (p s : FrameSpan) (imax : Nat) (r : MatchingArea) : Prop :=
  r.pattern = p ∧
  ((r.score = 64 ∧ r.«match» = mkFrameSpan vb (s.first + s.count) 0 ∧
      ∀ k, k ≤ imax → 64 ≤ meanAt va vb p s k) ∨
    (∃ k, k ≤ imax ∧ r.score = meanAt va vb p s k ∧
      r.«match» = s.subspan vb k p.count ∧
      (∀ k', k' ≤ imax → meanAt va vb p s k ≤ meanAt va vb p s k') ∧
      (∀ k', k' < k → meanAt va vb p s k < meanAt va vb p s k')))

/-- A frame whose hash is all zero bits. -/
def frameZero : Frame := { pts := 0, phash := 0 }

/-- A frame whose hash is all sixty-four one bits, at Hamming distance
64 from `frameZero`. -/
def frameOnes : Frame := { pts := 0, phash := 2 ^ 64 - 1 }

/-! ### Arithmetic facts about the embedding primitives -/

theorem usub_of_le {a b : Nat} (h : b ≤ a) (ha : a < 2 ^ 64) : usub a b = a - b := by
  unfold usub
  have h2 : (((2 ^ 64 : Nat) : Int)) = 18446744073709551616 := by norm_num
  rw [h2]
  omega

/-! ### C8: the span constructor clamps instead of failing -/

/-- C8: for every video and all offset/count arguments,
`FrameSpan(v, offset, n)` clamps `first` to at most the catalog size
and `count` to at most `size - first`, so every span built by the
constructor satisfies `first + count ≤ len(catalog.frames)` without
raising an error. -/
theorem C8_mkFrameSpan_clamps (video : List Frame) (offset n : Nat) :
    (mkFrameSpan video offset n).first = min offset video.length ∧
    (mkFrameSpan video offset n).count =
      min n (video.length - (mkFrameSpan video offset n).first) ∧
    (mkFrameSpan video offset n).first + (mkFrameSpan video offset n).count ≤
      video.length := by
  refine ⟨rfl, rfl, ?_⟩
  unfold mkFrameSpan
  simp only
  omega

theorem mkFrameSpan_first (video : List Frame) (offset n : Nat) :
    (mkFrameSpan video offset n).first = min offset video.length := rfl

theorem mkFrameSpan_count (video : List Frame) (offset n : Nat) :
    (mkFrameSpan video offset n).count = min n (video.length - min offset video.length) := rfl

/-! ### C5: the area-matcher sentinel case -/

/-- C5: for every pattern span and search-area span with
`search_area.size < pattern.size`, `find_best_matching_area_ex`
returns a score of exactly 64 and a zero-length match span positioned
at the end of the search area; being a total function, it never fails
in this case. -/
theorem C5_area_matcher_sentinel (va vb : List Frame) (pattern searchArea : FrameSpan)
    (hwf : searchArea.endOffset ≤ vb.length)
    (hlt : searchArea.size < pattern.size) :
    (find_best_matching_area_ex va vb pattern searchArea).score = 64 ∧
    (find_best_matching_area_ex va vb pattern searchArea).«match».size = 0 ∧
    (find_best_matching_area_ex va vb pattern searchArea).«match».first =
      searchArea.endOffset := by
  unfold find_best_matching_area_ex
  simp only [if_pos hlt]
  unfold FrameSpan.endOffset at hwf ⊢
  simp only [FrameSpan.size, mkFrameSpan_first, mkFrameSpan_count]
  refine ⟨trivial, ?_, ?_⟩ <;> omega

/-- Witness for C5 at a concrete input: a one-frame pattern searched in
an empty search area. -/
theorem C5_area_matcher_sentinel_witness :
    ((FrameSpan.mk 0 0).endOffset ≤ ([] : List Frame).length ∧
      (FrameSpan.mk 0 0).size < (FrameSpan.mk 0 1).size) ∧
    ((find_best_matching_area_ex [default] [] (FrameSpan.mk 0 1) (FrameSpan.mk 0 0)).score = 64 ∧
      (find_best_matching_area_ex [default] [] (FrameSpan.mk 0 1) (FrameSpan.mk 0 0)).«match».size
        = 0 ∧
      (find_best_matching_area_ex [default] [] (FrameSpan.mk 0 1) (FrameSpan.mk 0 0)).«match».first
        = (FrameSpan.mk 0 0).endOffset) :=
  ⟨⟨by decide, by decide⟩,
    C5_area_matcher_sentinel [default] [] (FrameSpan.mk 0 1) (FrameSpan.mk 0 0)
      (by decide) (by decide)⟩

/-! ### C7: `merge` and the smallest covering span -/

/-- C7 counterexample: for `a = [0,10)` and `b = [5,7)` over a
ten-frame catalog, `merge(a, b)` is `[0,7)`, which does not contain
`a` — so `merge` does not return a covering span (let alone the
smallest one) when one input is nested inside the other. -/
theorem C7_merge_not_covering_counterexample :
    (merge tenFrames (FrameSpan.mk 0 10) (FrameSpan.mk 5 2)).contains (FrameSpan.mk 0 10)
      = false := by decide

/-- C7 amended: `merge(a, b)` spans from the earlier start offset to
the end of the later-starting span.  Whenever the later-starting span
also ends no earlier than the other one (in particular whenever
neither span is strictly nested inside the other), this is the
smallest span covering both: it contains `a`, contains `b`, and every
span containing both `a` and `b` contains it. -/
theorem C7_merge_smallest_covering (video : List Frame) (a b : FrameSpan)
    (hwa : a.endOffset ≤ video.length) (hwb : b.endOffset ≤ video.length)
    (hlen : video.length < 2 ^ 64)
    (hcover : if b.startOffset < a.startOffset then b.endOffset ≤ a.endOffset
      else a.endOffset ≤ b.endOffset) :
    (merge video a b).contains a = true ∧
    (merge video a b).contains b = true ∧
    ∀ c : FrameSpan, c.contains a = true → c.contains b = true →
      c.contains (merge video a b) = true := by
  unfold merge
  by_cases h : b.startOffset < a.startOffset <;>
    simp only [h, if_pos, if_neg, if_true, if_false, reduceIte] at hcover ⊢
  · have hu : usub a.endOffset b.startOffset = a.endOffset - b.startOffset :=
      usub_of_le (by unfold FrameSpan.startOffset FrameSpan.endOffset at *; omega)
        (by omega)
    simp only [hu]
    unfold FrameSpan.contains mkFrameSpan FrameSpan.startOffset FrameSpan.endOffset at *
    refine ⟨?_, ?_, ?_⟩
    · simp only [Bool.and_eq_true, decide_eq_true_eq]; omega
    · simp only [Bool.and_eq_true, decide_eq_true_eq]; omega
    · intro c hca hcb
      simp only [Bool.and_eq_true, decide_eq_true_eq] at hca hcb ⊢
      omega
  · have hu : usub b.endOffset a.startOffset = b.endOffset - a.startOffset :=
      usub_of_le (by unfold FrameSpan.startOffset FrameSpan.endOffset at *; omega)
        (by omega)
    simp only [hu]
    unfold FrameSpan.contains mkFrameSpan FrameSpan.startOffset FrameSpan.endOffset at *
    refine ⟨?_, ?_, ?_⟩
    · simp only [Bool.and_eq_true, decide_eq_true_eq]; omega
    · simp only [Bool.and_eq_true, decide_eq_true_eq]; omega
    · intro c hca hcb
      simp only [Bool.and_eq_true, decide_eq_true_eq] at hca hcb ⊢
      omega

/-- Witness for C7 amended, at `a = [1,3)`, `b = [2,5)` over the
ten-frame catalog. -/
theorem C7_merge_smallest_covering_witness :
    ((FrameSpan.mk 1 2).endOffset ≤ tenFrames.length ∧
      (FrameSpan.mk 2 3).endOffset ≤ tenFrames.length ∧
      tenFrames.length < 2 ^ 64 ∧
      (if (FrameSpan.mk 2 3).startOffset < (FrameSpan.mk 1 2).startOffset then
          (FrameSpan.mk 2 3).endOffset ≤ (FrameSpan.mk 1 2).endOffset
        else (FrameSpan.mk 1 2).endOffset ≤ (FrameSpan.mk 2 3).endOffset)) ∧
    ((merge tenFrames (FrameSpan.mk 1 2) (FrameSpan.mk 2 3)).contains (FrameSpan.mk 1 2)
        = true ∧
      (merge tenFrames (FrameSpan.mk 1 2) (FrameSpan.mk 2 3)).contains (FrameSpan.mk 2 3)
        = true ∧
      ∀ c : FrameSpan, c.contains (FrameSpan.mk 1 2) = true →
        c.contains (FrameSpan.mk 2 3) = true →
        c.contains (merge tenFrames (FrameSpan.mk 1 2) (FrameSpan.mk 2 3)) = true) :=
  ⟨⟨by decide, by decide, by decide, by decide⟩,
    C7_merge_smallest_covering tenFrames (FrameSpan.mk 1 2) (FrameSpan.mk 2 3)
      (by decide) (by decide) (by decide) (by decide)⟩

/-! ### C4 and C10: what the area-matcher scan loop computes -/

theorem subspan_eq_of_le (vb : List Frame) (s : FrameSpan) (k n : Nat)
    (h : s.first + k + n ≤ vb.length) :
    s.subspan vb k n = FrameSpan.mk (s.first + k) n := by
  unfold FrameSpan.subspan
  rw [mkFrameSpan, FrameSpan.mk.injEq]
  omega

theorem fbmaLoop_post (va vb : List Frame) (p s : FrameSpan) (imax : Nat) :
    ∀ fuel i bestavg res, imax + 1 - i ≤ fuel →
    res.pattern = p → res.score = bestavg →
    ((bestavg = 64 ∧ res.«match» = mkFrameSpan vb (s.first + s.count) 0 ∧
        ∀ k, k < i → 64 ≤ meanAt va vb p s k) ∨
      (∃ k, k < i ∧ k ≤ imax ∧ res.score = meanAt va vb p s k ∧
        res.«match» = s.subspan vb k p.count ∧
        (∀ k', k' < i → meanAt va vb p s k ≤ meanAt va vb p s k') ∧
        (∀ k', k' < k → meanAt va vb p s k < meanAt va vb p s k'))) →
    fbmaPost va vb p s imax (fbmaLoop va vb p s imax fuel i bestavg res) := by
  intro fuel
  induction fuel with
  | zero =>
    intro i bestavg res hfuel hpat hsc hinv
    simp only [fbmaLoop]
    refine ⟨hpat, ?_⟩
    rcases hinv with ⟨h64, hm, hall⟩ | ⟨k, hk, hkim, hsk, hm, hmin, hleast⟩
    · exact Or.inl ⟨hsc ▸ h64, hm, fun k hk => hall k (by omega)⟩
    · exact Or.inr ⟨k, hkim, hsk, hm, fun k' hk' => hmin k' (by omega), hleast⟩
  | succ fuel ih =>
    intro i bestavg res hfuel hpat hsc hinv
    by_cases hi : i ≤ imax
    · rw [fbmaLoop.eq_2, if_pos hi]
      by_cases hlt : meanAt va vb p s i < bestavg
      · rw [if_pos hlt]
        refine ih (i + 1) (meanAt va vb p s i) _ (by omega) hpat rfl (Or.inr ?_)
        refine ⟨i, by omega, hi, rfl, rfl, ?_, ?_⟩
        · intro k' hk'
          rcases Nat.lt_succ_iff_lt_or_eq.mp hk' with h | h
          · rcases hinv with ⟨h64, _, hall⟩ | ⟨k, hk, hkim, hsk, _, hmin, _⟩
            · exact le_of_lt (lt_of_lt_of_le hlt (h64 ▸ hall k' h))
            · exact le_of_lt (lt_of_lt_of_le hlt (hsc ▸ hsk ▸ hmin k' h))
          · exact h ▸ le_refl _
        · intro k' hk'
          rcases hinv with ⟨h64, _, hall⟩ | ⟨k, hk, hkim, hsk, _, hmin, _⟩
          · exact lt_of_lt_of_le hlt (h64 ▸ hall k' hk')
          · exact lt_of_lt_of_le hlt (hsc ▸ hsk ▸ hmin k' hk')
      · rw [if_neg hlt]
        refine ih (i + 1) bestavg res (by omega) hpat hsc ?_
        rcases hinv with ⟨h64, hm, hall⟩ | ⟨k, hk, hkim, hsk, hm, hmin, hleast⟩
        · refine Or.inl ⟨h64, hm, fun k hk => ?_⟩
          rcases Nat.lt_succ_iff_lt_or_eq.mp hk with h | h
          · exact hall k h
          · exact h ▸ (h64 ▸ not_lt.mp hlt)
        · refine Or.inr ⟨k, by omega, hkim, hsk, hm, fun k' hk' => ?_, hleast⟩
          rcases Nat.lt_succ_iff_lt_or_eq.mp hk' with h | h
          · exact hmin k' h
          · exact h ▸ (hsk ▸ hsc.symm ▸ not_lt.mp hlt)
    · rw [fbmaLoop.eq_2, if_neg hi]
      refine ⟨hpat, ?_⟩
      rcases hinv with ⟨h64, hm, hall⟩ | ⟨k, hk, hkim, hsk, hm, hmin, hleast⟩
      · exact Or.inl ⟨hsc ▸ h64, hm, fun k hk => hall k (by omega)⟩
      · exact Or.inr ⟨k, hkim, hsk, hm, fun k' hk' => hmin k' (by omega), hleast⟩

theorem find_best_matching_area_ex_post (va vb : List Frame) (p s : FrameSpan)
    (hps : p.size ≤ s.size) :
    fbmaPost va vb p s (s.count - p.count) (find_best_matching_area_ex va vb p s) := by
  unfold find_best_matching_area_ex
  rw [if_neg (not_lt.mpr hps)]
  exact fbmaLoop_post va vb p s (s.count - p.count) (s.count - p.count + 1) 0 64 _
    (by omega) rfl rfl (Or.inl ⟨rfl, rfl, fun k hk => absurd hk (Nat.not_lt_zero k)⟩)

/-- C4 counterexample: a one-frame pattern (hash `0…0`) searched in a
one-frame area (hash `1…1`).  The only alignment offset is 0 and its
mean Hamming distance is 64 — minimal among all offsets — yet the
returned match is not the sub-span of the search area at that offset
(it is the zero-length sentinel at the end of the area): the update in
the scan requires `avg < 64` strictly, so the sentinel initial value
survives. -/
theorem C4_area_matcher_counterexample :
    meanAt [frameZero] [frameOnes] (FrameSpan.mk 0 1) (FrameSpan.mk 0 1) 0 = 64 ∧
    (FrameSpan.mk 0 1).size ≤ (FrameSpan.mk 0 1).size ∧
    (find_best_matching_area_ex [frameZero] [frameOnes] (FrameSpan.mk 0 1)
      (FrameSpan.mk 0 1)).«match» ≠ FrameSpan.mk 0 1 := by
  have hd : dacc [frameZero] [frameOnes] (FrameSpan.mk 0 1) (FrameSpan.mk 0 1) 0 = 64 := by
    decide
  have hm : meanAt [frameZero] [frameOnes] (FrameSpan.mk 0 1) (FrameSpan.mk 0 1) 0 = 64 := by
    unfold meanAt
    rw [hd]
    norm_num
  refine ⟨hm, by decide, ?_⟩
  have heval : (find_best_matching_area_ex [frameZero] [frameOnes] (FrameSpan.mk 0 1)
      (FrameSpan.mk 0 1)).«match» = FrameSpan.mk 1 0 := by
    unfold find_best_matching_area_ex
    simp only [FrameSpan.size, fbmaLoop, hm]
    norm_num [mkFrameSpan]
  rw [heval]
  decide

/-- C4 amended: for every pattern and search area with
`search_area.size >= pattern.size`, provided some alignment offset
attains a mean Hamming distance strictly below 64 (otherwise the
sentinel result is returned unchanged), `find_best_matching_area_ex`
returns an offset whose mean Hamming distance is minimal among all
offsets in `[0, search_area.size - pattern.size]`, together with the
sub-span of the search area at that offset and that minimal mean as
the score. -/
theorem C4_area_matcher_minimal_mean (va vb : List Frame) (p s : FrameSpan)
    (hwf : s.endOffset ≤ vb.length) (hp : 0 < p.size) (hps : p.size ≤ s.size)
    (hex : ∃ i, i ≤ s.size - p.size ∧ meanAt va vb p s i < 64) :
    ∃ i, i ≤ s.size - p.size ∧
      (find_best_matching_area_ex va vb p s).score = meanAt va vb p s i ∧
      (find_best_matching_area_ex va vb p s).«match» = FrameSpan.mk (s.first + i) p.count ∧
      ∀ k, k ≤ s.size - p.size → meanAt va vb p s i ≤ meanAt va vb p s k := by
  obtain ⟨hpat, hpost⟩ := find_best_matching_area_ex_post va vb p s hps
  rcases hpost with ⟨h64, _, hall⟩ | ⟨k, hk, hsk, hm, hmin, _⟩
  · obtain ⟨i, hi, hlt⟩ := hex
    exact absurd (hall i hi) (not_le.mpr hlt)
  · refine ⟨k, hk, hsk, ?_, hmin⟩
    rw [hm, subspan_eq_of_le]
    unfold FrameSpan.endOffset at hwf
    unfold FrameSpan.size at hps
    omega

/-- Witness for C4 amended: identical one-frame pattern and search
area (mean distance 0 at offset 0). -/
theorem C4_area_matcher_minimal_mean_witness :
    ((FrameSpan.mk 0 1).endOffset ≤ [frameZero].length ∧
      0 < (FrameSpan.mk 0 1).size ∧
      meanAt [frameZero] [frameZero] (FrameSpan.mk 0 1) (FrameSpan.mk 0 1) 0 < 64) ∧
    (∃ i, i ≤ (FrameSpan.mk 0 1).size - (FrameSpan.mk 0 1).size ∧
      (find_best_matching_area_ex [frameZero] [frameZero] (FrameSpan.mk 0 1)
        (FrameSpan.mk 0 1)).score =
        meanAt [frameZero] [frameZero] (FrameSpan.mk 0 1) (FrameSpan.mk 0 1) i ∧
      (find_best_matching_area_ex [frameZero] [frameZero] (FrameSpan.mk 0 1)
        (FrameSpan.mk 0 1)).«match» = FrameSpan.mk ((FrameSpan.mk 0 1).first + i)
          (FrameSpan.mk 0 1).count ∧
      ∀ k, k ≤ (FrameSpan.mk 0 1).size - (FrameSpan.mk 0 1).size →
        meanAt [frameZero] [frameZero] (FrameSpan.mk 0 1) (FrameSpan.mk 0 1) i ≤
          meanAt [frameZero] [frameZero] (FrameSpan.mk 0 1) (FrameSpan.mk 0 1) k) := by
  have hd : dacc [frameZero] [frameZero] (FrameSpan.mk 0 1) (FrameSpan.mk 0 1) 0 = 0 := by
    decide
  have hm : meanAt [frameZero] [frameZero] (FrameSpan.mk 0 1) (FrameSpan.mk 0 1) 0 < 64 := by
    unfold meanAt
    rw [hd]
    norm_num
  exact ⟨⟨by decide, by decide, hm⟩,
    C4_area_matcher_minimal_mean [frameZero] [frameZero] (FrameSpan.mk 0 1) (FrameSpan.mk 0 1)
      (by decide) (by decide) (by decide) ⟨0, by decide, hm⟩⟩

/-- C10 counterexample: a one-frame pattern at Hamming distance 64
from both frames of a two-frame search area.  Every offset has mean
64, no offset beats the initial best, and the returned match span is
the zero-length sentinel — not a span of `pattern.size` frames. -/
theorem C10_area_matcher_counterexample :
    (FrameSpan.mk 0 1).size ≤ (FrameSpan.mk 0 2).size ∧
    (find_best_matching_area_ex [frameZero] [frameOnes, frameOnes] (FrameSpan.mk 0 1)
      (FrameSpan.mk 0 2)).«match».size ≠ (FrameSpan.mk 0 1).size := by
  have hd0 : dacc [frameZero] [frameOnes, frameOnes] (FrameSpan.mk 0 1) (FrameSpan.mk 0 2) 0
      = 64 := by decide
  have hd1 : dacc [frameZero] [frameOnes, frameOnes] (FrameSpan.mk 0 1) (FrameSpan.mk 0 2) 1
      = 64 := by decide
  have hm0 : meanAt [frameZero] [frameOnes, frameOnes] (FrameSpan.mk 0 1) (FrameSpan.mk 0 2) 0
      = 64 := by
    unfold meanAt
    rw [hd0]
    norm_num
  have hm1 : meanAt [frameZero] [frameOnes, frameOnes] (FrameSpan.mk 0 1) (FrameSpan.mk 0 2) 1
      = 64 := by
    unfold meanAt
    rw [hd1]
    norm_num
  refine ⟨by decide, ?_⟩
  have heval : (find_best_matching_area_ex [frameZero] [frameOnes, frameOnes] (FrameSpan.mk 0 1)
      (FrameSpan.mk 0 2)).«match» = FrameSpan.mk 2 0 := by
    unfold find_best_matching_area_ex
    simp only [FrameSpan.size, fbmaLoop, hm0, hm1]
    norm_num [mkFrameSpan]
  rw [heval]
  decide

/-- C10 amended: for every pattern and search area with
`search_area.size >= pattern.size`, provided some alignment offset
attains a mean Hamming distance strictly below 64, the match span
returned by `find_best_matching_area_ex` has exactly `pattern.size`
frames, and among all offsets attaining the minimal mean the smallest
one is returned (a later offset replaces the current best only when
its mean is strictly smaller). -/
theorem C10_area_matcher_match_size (va vb : List Frame) (p s : FrameSpan)
    (hwf : s.endOffset ≤ vb.length) (hp : 0 < p.size) (hps : p.size ≤ s.size)
    (hex : ∃ i, i ≤ s.size - p.size ∧ meanAt va vb p s i < 64) :
    (find_best_matching_area_ex va vb p s).«match».size = p.size ∧
    ∃ i, i ≤ s.size - p.size ∧
      (find_best_matching_area_ex va vb p s).«match» = FrameSpan.mk (s.first + i) p.count ∧
      (∀ k, k ≤ s.size - p.size → meanAt va vb p s i ≤ meanAt va vb p s k) ∧
      (∀ k, k < i → meanAt va vb p s i < meanAt va vb p s k) := by
  obtain ⟨hpat, hpost⟩ := find_best_matching_area_ex_post va vb p s hps
  rcases hpost with ⟨h64, _, hall⟩ | ⟨k, hk, hsk, hm, hmin, hleast⟩
  · obtain ⟨i, hi, hlt⟩ := hex
    exact absurd (hall i hi) (not_le.mpr hlt)
  · have hmk : (find_best_matching_area_ex va vb p s).«match» =
        FrameSpan.mk (s.first + k) p.count := by
      rw [hm, subspan_eq_of_le]
      unfold FrameSpan.endOffset at hwf
      unfold FrameSpan.size at hps
      omega
    exact ⟨by rw [hmk]; rfl, k, hk, hmk, hmin, hleast⟩

/-- Witness for C10 amended: identical one-frame pattern and two-frame
search area whose first frame matches exactly. -/
theorem C10_area_matcher_match_size_witness :
    ((FrameSpan.mk 0 2).endOffset ≤ [frameZero, frameOnes].length ∧
      0 < (FrameSpan.mk 0 1).size ∧
      meanAt [frameZero] [frameZero, frameOnes] (FrameSpan.mk 0 1) (FrameSpan.mk 0 2) 0 < 64) ∧
    ((find_best_matching_area_ex [frameZero] [frameZero, frameOnes] (FrameSpan.mk 0 1)
        (FrameSpan.mk 0 2)).«match».size = (FrameSpan.mk 0 1).size ∧
      ∃ i, i ≤ (FrameSpan.mk 0 2).size - (FrameSpan.mk 0 1).size ∧
        (find_best_matching_area_ex [frameZero] [frameZero, frameOnes] (FrameSpan.mk 0 1)
          (FrameSpan.mk 0 2)).«match» = FrameSpan.mk ((FrameSpan.mk 0 2).first + i)
            (FrameSpan.mk 0 1).count ∧
        (∀ k, k ≤ (FrameSpan.mk 0 2).size - (FrameSpan.mk 0 1).size →
          meanAt [frameZero] [frameZero, frameOnes] (FrameSpan.mk 0 1) (FrameSpan.mk 0 2) i ≤
            meanAt [frameZero] [frameZero, frameOnes] (FrameSpan.mk 0 1) (FrameSpan.mk 0 2) k) ∧
        (∀ k, k < i →
          meanAt [frameZero] [frameZero, frameOnes] (FrameSpan.mk 0 1) (FrameSpan.mk 0 2) i <
            meanAt [frameZero] [frameZero, frameOnes] (FrameSpan.mk 0 1) (FrameSpan.mk 0 2) k))
    := by
  have hd : dacc [frameZero] [frameZero, frameOnes] (FrameSpan.mk 0 1) (FrameSpan.mk 0 2) 0 = 0
    := by decide
  have hm : meanAt [frameZero] [frameZero, frameOnes] (FrameSpan.mk 0 1) (FrameSpan.mk 0 2) 0
      < 64 := by
    unfold meanAt
    rw [hd]
    norm_num
  exact ⟨⟨by decide, by decide, hm⟩,
    C10_area_matcher_match_size [frameZero] [frameZero, frameOnes] (FrameSpan.mk 0 1)
      (FrameSpan.mk 0 2) (by decide) (by decide) (by decide) ⟨0, by decide, hm⟩⟩

/-! ### C2: the segment extractor tiles the catalog -/

theorem find_silence_end_loop_ge (video : List Frame) (frames : FrameSpan) :
    ∀ fuel i, i ≤ find_silence_end_loop video frames fuel i := by
  intro fuel
  induction fuel with
  | zero => intro i; exact le_refl i
  | succ fuel ih =>
    intro i
    simp only [find_silence_end_loop]
    split
    · exact le_trans (Nat.le_succ i) (ih (i + 1))
    · exact le_refl i

theorem find_silence_end_loop_le (video : List Frame) (frames : FrameSpan) :
    ∀ fuel i, i ≤ frames.size → find_silence_end_loop video frames fuel i ≤ frames.size := by
  intro fuel
  induction fuel with
  | zero => intro i h; exact h
  | succ fuel ih =>
    intro i h
    simp only [find_silence_end_loop]
    split
    · rename_i hc
      exact ih (i + 1) hc.1
    · exact h

theorem find_next_silence_loop_ge (video : List Frame) (frames : FrameSpan) :
    ∀ fuel i, i ≤ find_next_silence_loop video frames fuel i := by
  intro fuel
  induction fuel with
  | zero => intro i; exact le_refl i
  | succ fuel ih =>
    intro i
    simp only [find_next_silence_loop]
    split
    · exact le_trans (Nat.le_succ i) (ih (i + 1))
    · exact le_refl i

theorem find_next_silence_loop_le (video : List Frame) (frames : FrameSpan) :
    ∀ fuel i, i ≤ frames.size → find_next_silence_loop video frames fuel i ≤ frames.size := by
  intro fuel
  induction fuel with
  | zero => intro i h; exact h
  | succ fuel ih =>
    intro i h
    simp only [find_next_silence_loop]
    split
    · rename_i hc
      exact ih (i + 1) hc.1
    · exact h

theorem find_next_blackframe_loop_ge (video : List Frame) (frames : FrameSpan) :
    ∀ fuel i, i ≤ find_next_blackframe_loop video frames fuel i := by
  intro fuel
  induction fuel with
  | zero => intro i; exact le_refl i
  | succ fuel ih =>
    intro i
    simp only [find_next_blackframe_loop]
    split
    · split
      · exact le_refl i
      · exact le_trans (Nat.le_succ i) (ih (i + 1))
    · exact le_refl i

theorem find_next_blackframe_loop_le (video : List Frame) (frames : FrameSpan) :
    ∀ fuel i, i ≤ frames.size → find_next_blackframe_loop video frames fuel i ≤ frames.size := by
  intro fuel
  induction fuel with
  | zero => intro i h; exact h
  | succ fuel ih =>
    intro i h
    simp only [find_next_blackframe_loop]
    split
    · rename_i hc
      split
      · exact h
      · exact ih (i + 1) hc
    · exact h

theorem find_next_scframe_loop_ge (video : List Frame) (frames : FrameSpan) :
    ∀ fuel i, i ≤ find_next_scframe_loop video frames fuel i := by
  intro fuel
  induction fuel with
  | zero => intro i; exact le_refl i
  | succ fuel ih =>
    intro i
    simp only [find_next_scframe_loop]
    split
    · split
      · exact le_refl i
      · exact le_trans (Nat.le_succ i) (ih (i + 1))
    · exact le_refl i

theorem find_next_scframe_loop_le (video : List Frame) (frames : FrameSpan) :
    ∀ fuel i, i ≤ frames.size → find_next_scframe_loop video frames fuel i ≤ frames.size := by
  intro fuel
  induction fuel with
  | zero => intro i h; exact h
  | succ fuel ih =>
    intro i h
    simp only [find_next_scframe_loop]
    split
    · rename_i hc
      split
      · exact h
      · exact ih (i + 1) hc
    · exact h

theorem find_silence_end_ge (video : List Frame) (frames : FrameSpan) (i : Nat) :
    i ≤ find_silence_end video frames i :=
  find_silence_end_loop_ge video frames _ i

theorem find_silence_end_le (video : List Frame) (frames : FrameSpan) (i : Nat)
    (h : i ≤ frames.size) : find_silence_end video frames i ≤ frames.size :=
  find_silence_end_loop_le video frames _ i h

theorem find_next_silence_ge (video : List Frame) (frames : FrameSpan) (i : Nat) :
    i ≤ find_next_silence video frames i :=
  le_trans (find_silence_end_ge video frames i) (find_next_silence_loop_ge video frames _ _)

theorem find_next_silence_le (video : List Frame) (frames : FrameSpan) (i : Nat)
    (h : i ≤ frames.size) : find_next_silence video frames i ≤ frames.size :=
  find_next_silence_loop_le video frames _ _ (find_silence_end_le video frames i h)

theorem find_next_silence_gt (video : List Frame) (frames : FrameSpan) (i : Nat)
    (h : i < frames.size) : i < find_next_silence video frames i := by
  unfold find_next_silence
  by_cases hsil : (frames.frameAt video i).silence = true
  · have h1 : i + 1 ≤ find_silence_end video frames i := by
      unfold find_silence_end
      obtain ⟨f, hf⟩ : ∃ f, frames.size - i = f + 1 := ⟨frames.size - i - 1, by omega⟩
      rw [hf]
      simp only [find_silence_end_loop]
      rw [if_pos ⟨h, hsil⟩]
      exact find_silence_end_loop_ge video frames f (i + 1)
    have h2 := find_next_silence_loop_ge video frames
      (frames.size - find_silence_end video frames i) (find_silence_end video frames i)
    omega
  · have h1 : find_silence_end video frames i = i := by
      unfold find_silence_end
      cases hf : frames.size - i with
      | zero => rfl
      | succ f =>
        simp only [find_silence_end_loop]
        rw [if_neg]
        intro hc
        exact hsil hc.2
    rw [h1]
    obtain ⟨f, hf⟩ : ∃ f, frames.size - i = f + 1 := ⟨frames.size - i - 1, by omega⟩
    rw [hf]
    simp only [find_next_silence_loop]
    rw [if_pos ⟨h, hsil⟩]
    have := find_next_silence_loop_ge video frames f (i + 1)
    omega

theorem find_next_scframe_ge (video : List Frame) (frames : FrameSpan) (i : Nat) :
    i + 1 ≤ find_next_scframe video frames i :=
  find_next_scframe_loop_ge video frames _ (i + 1)

theorem find_next_scframe_le (video : List Frame) (frames : FrameSpan) (i : Nat)
    (h : i < frames.size) : find_next_scframe video frames i ≤ frames.size :=
  find_next_scframe_loop_le video frames _ (i + 1) h

theorem find_next_blackframe_ge (video : List Frame) (frames : FrameSpan) (i : Nat) :
    i + 1 ≤ find_next_blackframe video frames i :=
  find_next_blackframe_loop_ge video frames _ (i + 1)

theorem find_next_blackframe_le (video : List Frame) (frames : FrameSpan) (i : Nat)
    (h : i < frames.size) : find_next_blackframe video frames i ≤ frames.size :=
  find_next_blackframe_loop_le video frames _ (i + 1) h

theorem find_segment_end_loop_bounds (video : List Frame) (frames : FrameSpan) :
    ∀ fuel segend, segend ≤ frames.size →
      segend ≤ find_segment_end_loop video frames fuel segend ∧
      find_segment_end_loop video frames fuel segend ≤ frames.size := by
  intro fuel
  induction fuel with
  | zero => intro segend h; exact ⟨le_refl _, h⟩
  | succ fuel ih =>
    intro segend h
    simp only [find_segment_end_loop]
    split
    · rename_i hne
      have hlt : segend < frames.size := lt_of_le_of_ne h hne
      split
      · split
        · have h1 := find_next_scframe_ge video frames segend
          have h2 := find_next_scframe_le video frames segend hlt
          omega
        · have h1 := find_next_blackframe_ge video frames segend
          have h2 := find_next_blackframe_le video frames segend hlt
          omega
      · have h1 := find_next_silence_ge video frames segend
        have h2 := find_next_silence_le video frames segend h
        have h3 := ih (find_next_silence video frames segend) h2
        omega
    · exact ⟨le_refl _, h⟩

theorem find_segment_end_bounds (video : List Frame) (frames : FrameSpan) (start : Nat)
    (h : start < frames.size) :
    start < find_segment_end video frames start ∧
    find_segment_end video frames start ≤ frames.size := by
  unfold find_segment_end
  have h1 := find_next_silence_gt video frames start h
  have h2 := find_next_silence_le video frames start (le_of_lt h)
  have h3 := find_segment_end_loop_bounds video frames
    (frames.size - find_next_silence video frames start)
    (find_next_silence video frames start) h2
  omega

theorem extract_segments_loop_nil (video : List Frame) (frames : FrameSpan)
    (fuel i : Nat) (h : ¬ i < frames.size) :
    extract_segments_loop video frames fuel i = [] := by
  cases fuel with
  | zero => rfl
  | succ fuel => simp only [extract_segments_loop]; rw [if_neg h]

theorem extract_segments_loop_tiles (video : List Frame) :
    ∀ fuel i, i < video.length → video.length - i ≤ fuel →
      tiles i video.length
        (extract_segments_loop video (FrameSpan.mk 0 video.length) fuel i) := by
  intro fuel
  induction fuel with
  | zero => intro i h hf; exact absurd hf (by omega)
  | succ fuel ih =>
    intro i h hf
    have hb := find_segment_end_bounds video (FrameSpan.mk 0 video.length) i h
    have hsz : (FrameSpan.mk 0 video.length).size = video.length := rfl
    rw [hsz] at hb
    simp only [extract_segments_loop]
    rw [if_pos (show i < (FrameSpan.mk 0 video.length).size from h)]
    have hsub : (FrameSpan.mk 0 video.length).subspan video i
        (find_segment_end video (FrameSpan.mk 0 video.length) i - i) =
        FrameSpan.mk i (find_segment_end video (FrameSpan.mk 0 video.length) i - i) := by
      have hbound : (FrameSpan.mk 0 video.length).first + i +
          (find_segment_end video (FrameSpan.mk 0 video.length) i - i) ≤ video.length := by
        have hfz : (FrameSpan.mk 0 video.length).first = 0 := rfl
        rw [hfz]
        omega
      have := subspan_eq_of_le video (FrameSpan.mk 0 video.length) i
        (find_segment_end video (FrameSpan.mk 0 video.length) i - i) hbound
      rw [this, FrameSpan.mk.injEq]
      refine ⟨?_, rfl⟩
      show 0 + i = i
      omega
    rw [hsub]
    refine ⟨rfl, ?_, ?_⟩
    · show i < (FrameSpan.mk i
        (find_segment_end video (FrameSpan.mk 0 video.length) i - i)).endOffset
      unfold FrameSpan.endOffset
      simp only
      omega
    · have hend : (FrameSpan.mk i
          (find_segment_end video (FrameSpan.mk 0 video.length) i - i)).endOffset =
          find_segment_end video (FrameSpan.mk 0 video.length) i := by
        unfold FrameSpan.endOffset
        simp only
        omega
      rw [hend]
      by_cases hel : find_segment_end video (FrameSpan.mk 0 video.length) i < video.length
      · exact ih _ hel (by omega)
      · have hee : find_segment_end video (FrameSpan.mk 0 video.length) i = video.length := by
          omega
        rw [extract_segments_loop_nil video _ fuel _ (by rw [hsz]; omega)]
        show find_segment_end video (FrameSpan.mk 0 video.length) i = video.length
        exact hee

theorem tiles_ne_nil {lo hi : Nat} {l : List FrameSpan} (ht : tiles lo hi l) (h : lo < hi) :
    l ≠ [] := by
  cases l with
  | nil => exact absurd (show lo = hi from ht) (by omega)
  | cons a l => exact List.cons_ne_nil a l

theorem tiles_head {lo hi : Nat} {l : List FrameSpan} (ht : tiles lo hi l) :
    ∀ s, l.head? = some s → s.startOffset = lo := by
  cases l with
  | nil => intro s hs; exact absurd hs (by simp)
  | cons a l =>
    intro s hs
    simp only [List.head?_cons, Option.some.injEq] at hs
    subst hs
    exact ht.1

theorem tiles_chain : ∀ (l : List FrameSpan) (lo hi : Nat), tiles lo hi l →
    List.Chain' (fun a b => a.endOffset = b.startOffset) l := by
  intro l
  induction l with
  | nil => intro lo hi _; exact List.chain'_nil
  | cons a l ih =>
    intro lo hi ht
    obtain ⟨h1, h2, h3⟩ := ht
    rw [List.chain'_cons']
    refine ⟨?_, ih _ hi h3⟩
    intro b hb
    exact (tiles_head h3 b hb).symm

theorem tiles_getLast : ∀ (l : List FrameSpan) (lo hi : Nat), tiles lo hi l →
    ∀ s, l.getLast? = some s → s.endOffset = hi := by
  intro l
  induction l with
  | nil => intro lo hi _ s hs; exact absurd hs (by simp)
  | cons a l ih =>
    intro lo hi ht s hs
    obtain ⟨h1, h2, h3⟩ := ht
    cases l with
    | nil =>
      simp only [List.getLast?_singleton, Option.some.injEq] at hs
      subst hs
      exact h3
    | cons b l' =>
      rw [List.getLast?_cons_cons] at hs
      exact ih _ hi h3 s hs

theorem tiles_size_pos : ∀ (l : List FrameSpan) (lo hi : Nat), tiles lo hi l →
    ∀ s ∈ l, 0 < s.size := by
  intro l
  induction l with
  | nil => intro lo hi _ s hs; exact absurd hs (by simp)
  | cons a l ih =>
    intro lo hi ht s hs
    obtain ⟨h1, h2, h3⟩ := ht
    rcases List.mem_cons.mp hs with h | h
    · subst h
      unfold FrameSpan.endOffset at h2
      unfold FrameSpan.size
      omega
    · exact ih _ hi h3 s h

/-- C2: for every non-empty frame catalog, `extract_segments` over the
catalog's full span terminates (it is a total function) and returns an
ordered sequence of non-empty contiguous spans that exactly tile
`[0, len(frames))` with no gaps or overlaps: the output is non-empty,
its first span starts at offset 0, each subsequent span starts where
the previous one ends, the last span ends at `len(frames)`, and every
span is non-empty. -/
theorem C2_extract_segments_tiling (video : List Frame) (hne : video ≠ []) :
    extract_segments video (mkFrameSpan video 0 video.length) ≠ [] ∧
    (∀ s, (extract_segments video (mkFrameSpan video 0 video.length)).head? = some s →
      s.startOffset = 0) ∧
    List.Chain' (fun a b => a.endOffset = b.startOffset)
      (extract_segments video (mkFrameSpan video 0 video.length)) ∧
    (∀ s, (extract_segments video (mkFrameSpan video 0 video.length)).getLast? = some s →
      s.endOffset = video.length) ∧
    (∀ s ∈ extract_segments video (mkFrameSpan video 0 video.length), 0 < s.size) := by
  have hlen : 0 < video.length := List.length_pos.mpr hne
  have hfull : mkFrameSpan video 0 video.length = FrameSpan.mk 0 video.length := by
    rw [mkFrameSpan, FrameSpan.mk.injEq]
    constructor <;> simp
  rw [hfull]
  have ht : tiles 0 video.length (extract_segments video (FrameSpan.mk 0 video.length)) := by
    unfold extract_segments
    exact extract_segments_loop_tiles video video.length 0 hlen (by omega)
  exact ⟨tiles_ne_nil ht hlen, tiles_head ht, tiles_chain _ _ _ ht,
    tiles_getLast _ _ _ ht, tiles_size_pos _ _ _ ht⟩

/-- Witness for C2 at a concrete one-frame catalog. -/
theorem C2_extract_segments_tiling_witness :
    ([frameZero] ≠ ([] : List Frame)) ∧
    (extract_segments [frameZero] (mkFrameSpan [frameZero] 0 [frameZero].length) ≠ [] ∧
      (∀ s, (extract_segments [frameZero]
          (mkFrameSpan [frameZero] 0 [frameZero].length)).head? = some s →
        s.startOffset = 0) ∧
      List.Chain' (fun a b => a.endOffset = b.startOffset)
        (extract_segments [frameZero] (mkFrameSpan [frameZero] 0 [frameZero].length)) ∧
      (∀ s, (extract_segments [frameZero]
          (mkFrameSpan [frameZero] 0 [frameZero].length)).getLast? = some s →
        s.endOffset = [frameZero].length) ∧
      (∀ s ∈ extract_segments [frameZero] (mkFrameSpan [frameZero] 0 [frameZero].length),
        0 < s.size)) :=
  ⟨List.cons_ne_nil _ _, C2_extract_segments_tiling [frameZero] (List.cons_ne_nil _ _)⟩

/-! ### C6: merging scene changes that are too close -/

theorem zeroSc_length (frames : List Frame) (k : Nat) :
    (zeroSc frames k).length = frames.length := by
  simp [zeroSc]

theorem getD_zeroSc_self (frames : List Frame) (k : Nat) (h : k < frames.length) :
    (zeroSc frames k).getD k default = { frames.getD k default with scscore := 0 } := by
  simp [zeroSc, List.getD_eq_getElem?_getD, List.getElem?_set_self', h]

theorem getD_zeroSc_ne (frames : List Frame) (k m : Nat) (h : k ≠ m) :
    (zeroSc frames m).getD k default = frames.getD k default := by
  simp [zeroSc, List.getD_eq_getElem?_getD, List.getElem?_set_ne (by omega : m ≠ k)]

theorem scAt_zeroSc_iff (frames : List Frame) (m k : Nat) (h : k ≠ m) :
    scAt (zeroSc frames m) k ↔ scAt frames k := by
  unfold scAt
  rw [zeroSc_length, getD_zeroSc_ne frames k m h]

theorem not_scAt_zeroSc_self (frames : List Frame) (m : Nat) :
    ¬ scAt (zeroSc frames m) m := by
  unfold scAt
  rw [zeroSc_length]
  rintro ⟨hm, hpos⟩
  rw [getD_zeroSc_self frames m hm] at hpos
  exact lt_irrefl 0 hpos

theorem scAt_zeroSc_elim {frames : List Frame} {m k : Nat}
    (h : scAt (zeroSc frames m) k) : k ≠ m ∧ scAt frames k := by
  by_cases hkm : k = m
  · exact absurd (hkm ▸ h) (not_scAt_zeroSc_self frames m)
  · exact ⟨hkm, (scAt_zeroSc_iff frames m k hkm).mp h⟩

theorem countP_set_sc : ∀ (l : List Frame) (k : Nat) (b : Frame), ¬ 0 < b.scscore →
    ((l.set k b).countP (fun f => decide (0 < f.scscore)) ≤
      l.countP (fun f => decide (0 < f.scscore)) ∧
    (k < l.length → 0 < (l.getD k default).scscore →
      (l.set k b).countP (fun f => decide (0 < f.scscore)) <
        l.countP (fun f => decide (0 < f.scscore)))) := by
  intro l
  induction l with
  | nil =>
    intro k b hb
    exact ⟨le_refl _, fun h => absurd h (by simp)⟩
  | cons a l ih =>
    intro k b hb
    cases k with
    | zero =>
      simp only [List.set, List.countP_cons, List.getD_cons_zero, List.length_cons]
      have hbf : (decide (0 < b.scscore)) = false := by
        simp [hb]
      rw [hbf]
      simp only [Bool.false_eq_true, if_false]
      constructor
      · split <;> omega
      · intro _ ha
        have haf : (decide (0 < a.scscore)) = true := by
          simp [ha]
        rw [haf]
        simp only [if_true]
        omega
    | succ k =>
      simp only [List.set, List.countP_cons, List.getD_cons_succ, List.length_cons]
      obtain ⟨h1, h2⟩ := ih k b hb
      constructor
      · omega
      · intro hk ha
        have := h2 (by omega) ha
        omega

theorem scCount_zeroSc_le (frames : List Frame) (m : Nat) :
    scCount (zeroSc frames m) ≤ scCount frames := by
  unfold scCount zeroSc
  exact (countP_set_sc frames m _ (by simp)).1

theorem scCount_zeroSc_lt (frames : List Frame) (m : Nat) (h : scAt frames m) :
    scCount (zeroSc frames m) < scCount frames := by
  unfold scCount zeroSc
  exact (countP_set_sc frames m _ (by simp)).2 h.1 h.2

theorem find_next_scene_loop_ge (frames : List Frame) :
    ∀ fuel i, i ≤ find_next_scene_loop frames fuel i := by
  intro fuel
  induction fuel with
  | zero => intro i; exact le_refl i
  | succ fuel ih =>
    intro i
    simp only [find_next_scene_loop]
    split
    · split
      · exact le_refl i
      · exact le_trans (Nat.le_succ i) (ih (i + 1))
    · exact le_refl i

theorem find_next_scene_loop_le (frames : List Frame) :
    ∀ fuel i, i ≤ frames.length → find_next_scene_loop frames fuel i ≤ frames.length := by
  intro fuel
  induction fuel with
  | zero => intro i h; exact h
  | succ fuel ih =>
    intro i h
    simp only [find_next_scene_loop]
    split
    · rename_i hc
      split
      · exact h
      · exact ih (i + 1) hc
    · exact h

theorem find_next_scene_loop_not_sc (frames : List Frame) :
    ∀ fuel i k, i ≤ k → k < find_next_scene_loop frames fuel i →
      ¬ 0 < (frames.getD k default).scscore := by
  intro fuel
  induction fuel with
  | zero =>
    intro i k h1 h2
    exact absurd (lt_of_le_of_lt h1 h2) (lt_irrefl i)
  | succ fuel ih =>
    intro i k h1 h2
    simp only [find_next_scene_loop] at h2
    by_cases hl : i < frames.length
    · rw [if_pos hl] at h2
      by_cases hsc : 0 < (frames.getD i default).scscore
      · rw [if_pos hsc] at h2
        exact absurd (lt_of_le_of_lt h1 h2) (lt_irrefl i)
      · rw [if_neg hsc] at h2
        rcases eq_or_lt_of_le h1 with h | h
        · exact h ▸ hsc
        · exact ih (i + 1) k h h2
    · rw [if_neg hl] at h2
      exact absurd (lt_of_le_of_lt h1 h2) (lt_irrefl i)

theorem find_next_scene_loop_sc (frames : List Frame) :
    ∀ fuel i, frames.length - i ≤ fuel →
      find_next_scene_loop frames fuel i < frames.length →
      0 < (frames.getD (find_next_scene_loop frames fuel i) default).scscore := by
  intro fuel
  induction fuel with
  | zero =>
    intro i h1 h2
    have h0 : find_next_scene_loop frames 0 i = i := rfl
    rw [h0] at h2
    exact absurd h2 (by omega)
  | succ fuel ih =>
    intro i h1 h2
    simp only [find_next_scene_loop] at h2 ⊢
    by_cases hl : i < frames.length
    · rw [if_pos hl] at h2 ⊢
      by_cases hsc : 0 < (frames.getD i default).scscore
      · rw [if_pos hsc] at h2 ⊢
        exact hsc
      · rw [if_neg hsc] at h2 ⊢
        exact ih (i + 1) (by omega) h2
    · rw [if_neg hl] at h2
      exact absurd h2 (by omega)

theorem find_next_scene_gt (frames : List Frame) (i : Nat) (h : i < frames.length) :
    i < find_next_scene frames i := by
  unfold find_next_scene
  split
  · have := find_next_scene_loop_ge frames (frames.length - (i + 1)) (i + 1)
    omega
  · rename_i hsc
    obtain ⟨f, hf⟩ : ∃ f, frames.length - i = f + 1 := ⟨frames.length - i - 1, by omega⟩
    rw [hf]
    simp only [find_next_scene_loop]
    rw [if_pos h, if_neg hsc]
    have := find_next_scene_loop_ge frames f (i + 1)
    omega

theorem find_next_scene_le (frames : List Frame) (i : Nat) (h : i ≤ frames.length) :
    find_next_scene frames i ≤ frames.length := by
  unfold find_next_scene
  split
  · rename_i hsc
    have hi : i < frames.length := by
      by_contra hc
      rw [List.getD_eq_default _ _ (by omega)] at hsc
      exact absurd hsc (lt_irrefl 0)
    exact find_next_scene_loop_le frames _ (i + 1) hi
  · exact find_next_scene_loop_le frames _ i h

theorem find_next_scene_not_sc (frames : List Frame) (i : Nat) :
    ∀ k, i < k → k < find_next_scene frames i →
      ¬ 0 < (frames.getD k default).scscore := by
  unfold find_next_scene
  split
  · intro k h1 h2
    exact find_next_scene_loop_not_sc frames _ (i + 1) k (by omega) h2
  · intro k h1 h2
    exact find_next_scene_loop_not_sc frames _ i k (by omega) h2

theorem find_next_scene_sc (frames : List Frame) (i : Nat)
    (h : find_next_scene frames i < frames.length) :
    0 < (frames.getD (find_next_scene frames i) default).scscore := by
  unfold find_next_scene at h ⊢
  split at h
  · rw [if_pos (by assumption)]
    exact find_next_scene_loop_sc frames _ (i + 1) (le_refl _) h
  · rw [if_neg (by assumption)]
    exact find_next_scene_loop_sc frames _ i (le_refl _) h

theorem merge_loop_spaced (minSize : Nat) : ∀ fuel (frames : List Frame) (i : Nat),
    scCount frames + (frames.length - i) < fuel →
    i ≤ frames.length →
    scSpaced frames minSize i →
    (i < frames.length → ¬ scAt frames i → ∀ k, k < i → ¬ scAt frames k) →
    scSpaced (merge_small_scenes_loop minSize fuel frames i) minSize
      (merge_small_scenes_loop minSize fuel frames i).length := by
  intro fuel
  induction fuel with
  | zero =>
    intro frames i hfuel _ _ _
    exact absurd hfuel (by omega)
  | succ fuel ih =>
    intro frames i hfuel hile hI1 hI2
    simp only [merge_small_scenes_loop]
    by_cases hN : i < frames.length
    · rw [if_pos hN]
      have hgt : i < find_next_scene frames i := find_next_scene_gt frames i hN
      have hle2 : find_next_scene frames i ≤ frames.length := find_next_scene_le frames i hile
      have hmid := find_next_scene_not_sc frames i
      by_cases hA : minSize ≤ find_next_scene frames i - i
      · rw [if_pos hA]
        apply ih
        · omega
        · exact hle2
        · intro a b ha hb hab hbn hcons
          by_cases hbi : b ≤ i
          · exact hI1 a b ha hb hab hbi hcons
          · have hbn' : b = find_next_scene frames i := by
              by_contra hne
              exact hmid b (by omega) (by omega) hb.2
            have hai : a ≤ i := by
              by_contra h'
              exact hmid a (by omega) (by omega) ha.2
            by_cases hsci : scAt frames i
            · have hae : a = i := by
                by_contra h'
                exact hcons i (by omega) (by omega) hsci
              omega
            · rcases eq_or_lt_of_le hai with h' | h'
              · exact absurd (h' ▸ ha) hsci
              · exact absurd ha (hI2 hN hsci a h')
        · intro hnlen hnsc
          exact absurd ⟨hnlen, find_next_scene_sc frames i hnlen⟩ hnsc
      · rw [if_neg hA]
        by_cases hB : find_next_scene frames i = frames.length
        · rw [if_pos hB]
          intro a b ha hb hab hble hcons
          obtain ⟨hane, ha'⟩ := scAt_zeroSc_elim ha
          obtain ⟨hbne, hb'⟩ := scAt_zeroSc_elim hb
          have hbound : ∀ x, scAt frames x → x ≤ i := by
            intro x hx
            by_contra hxgt
            exact hmid x (by omega) (by rw [hB]; exact hx.1) hx.2
          have hblt : b < i := lt_of_le_of_ne (hbound b hb') hbne
          apply hI1 a b ha' hb' hab (by omega)
          intro k hk1 hk2 hsk
          exact hcons k hk1 hk2 ((scAt_zeroSc_iff frames i k (by omega)).mpr hsk)
        · rw [if_neg hB]
          have hnlen : find_next_scene frames i < frames.length := by omega
          have hscn : scAt frames (find_next_scene frames i) :=
            ⟨hnlen, find_next_scene_sc frames i hnlen⟩
          by_cases hC : (frames.getD (find_next_scene frames i) default).scscore <
              (frames.getD i default).scscore
          · rw [if_pos hC]
            have hsci : scAt frames i := ⟨hN, lt_trans hscn.2 hC⟩
            apply ih
            · have h1 := scCount_zeroSc_lt frames _ hscn
              rw [zeroSc_length]
              omega
            · rw [zeroSc_length]
              omega
            · intro a b ha hb hab hbi hcons
              obtain ⟨hane, ha'⟩ := scAt_zeroSc_elim ha
              obtain ⟨hbne, hb'⟩ := scAt_zeroSc_elim hb
              apply hI1 a b ha' hb' hab hbi
              intro k hk1 hk2 hsk
              exact hcons k hk1 hk2 ((scAt_zeroSc_iff frames _ k (by omega)).mpr hsk)
            · intro hlen' hnsc
              exact absurd ((scAt_zeroSc_iff frames _ i (by omega)).mpr hsci) hnsc
          · rw [if_neg hC]
            apply ih
            · have h1 := scCount_zeroSc_le frames i
              rw [zeroSc_length]
              omega
            · rw [zeroSc_length]
              exact hle2
            · intro a b ha hb hab hbn hcons
              obtain ⟨hane, ha'⟩ := scAt_zeroSc_elim ha
              obtain ⟨hbne, hb'⟩ := scAt_zeroSc_elim hb
              by_cases hbn' : b = find_next_scene frames i
              · have hai : a < i := by
                  have hale : a ≤ i := by
                    by_contra h'
                    exact hmid a (by omega) (by omega) ha'.2
                  exact lt_of_le_of_ne hale hane
                by_cases hsci : scAt frames i
                · have hbtw : ∀ k, a < k → k < i → ¬ scAt frames k := by
                    intro k hk1 hk2 hsk
                    exact hcons k hk1 (by omega) ((scAt_zeroSc_iff frames i k (by omega)).mpr hsk)
                  have hspace := hI1 a i ha' hsci hai (le_refl i) hbtw
                  omega
                · exact absurd ha' (hI2 hN hsci a hai)
              · have hbi : b < i := by
                  have hble : b ≤ i := by
                    by_contra h'
                    exact hmid b (by omega) (by omega) hb'.2
                  exact lt_of_le_of_ne hble hbne
                apply hI1 a b ha' hb' hab (by omega)
                intro k hk1 hk2 hsk
                exact hcons k hk1 hk2 ((scAt_zeroSc_iff frames i k (by omega)).mpr hsk)
            · intro hlen' hnsc
              exact absurd ((scAt_zeroSc_iff frames i _ (by omega)).mpr hscn) hnsc
    · rw [if_neg hN]
      intro a b ha hb hab hble hcons
      exact hI1 a b ha hb hab (by omega) hcons

theorem getD_zeroSc_scscore (frames : List Frame) (m k : Nat) :
    ((zeroSc frames m).getD k default).scscore = (frames.getD k default).scscore ∨
    ((zeroSc frames m).getD k default).scscore = 0 := by
  by_cases hkm : k = m
  · subst hkm
    by_cases hk : k < frames.length
    · right
      rw [getD_zeroSc_self frames k hk]
    · left
      unfold zeroSc
      rw [List.set_eq_of_length_le (by omega)]
  · left
    rw [getD_zeroSc_ne frames k m hkm]

theorem merge_loop_score_cases (minSize : Nat) : ∀ fuel (frames : List Frame) (i k : Nat),
    ((merge_small_scenes_loop minSize fuel frames i).getD k default).scscore =
      (frames.getD k default).scscore ∨
    ((merge_small_scenes_loop minSize fuel frames i).getD k default).scscore = 0 := by
  intro fuel
  induction fuel with
  | zero =>
    intro frames i k
    left
    rfl
  | succ fuel ih =>
    intro frames i k
    simp only [merge_small_scenes_loop]
    by_cases hN : i < frames.length
    · rw [if_pos hN]
      by_cases hA : minSize ≤ find_next_scene frames i - i
      · rw [if_pos hA]
        exact ih frames _ k
      · rw [if_neg hA]
        by_cases hB : find_next_scene frames i = frames.length
        · rw [if_pos hB]
          exact getD_zeroSc_scscore frames i k
        · rw [if_neg hB]
          by_cases hC : (frames.getD (find_next_scene frames i) default).scscore <
              (frames.getD i default).scscore
          · rw [if_pos hC]
            rcases ih (zeroSc frames (find_next_scene frames i)) i k with h | h
            · rcases getD_zeroSc_scscore frames (find_next_scene frames i) k with h2 | h2
              · left
                rw [h, h2]
              · right
                rw [h, h2]
            · right
              exact h
          · rw [if_neg hC]
            rcases ih (zeroSc frames i) _ k with h | h
            · rcases getD_zeroSc_scscore frames i k with h2 | h2
              · left
                rw [h, h2]
              · right
                rw [h, h2]
            · right
              exact h
    · rw [if_neg hN]
      left
      rfl

theorem merge_loop_zero_stable (minSize fuel : Nat) (frames : List Frame) (i k : Nat)
    (h : (frames.getD k default).scscore = 0) :
    ((merge_small_scenes_loop minSize fuel frames i).getD k default).scscore = 0 := by
  rcases merge_loop_score_cases minSize fuel frames i k with h2 | h2
  · rw [h2, h]
  · exact h2

/-- C6: after `merge_small_scenes(video, k)` completes, any two
consecutive remaining scene-change frames (frames with `scscore > 0`)
are at least `k` frames apart — in fact unconditionally, so in
particular except where one of the two is at a catalog boundary; and
when the loop compares two scene-change candidates closer than `k`
(neither at the catalog end), the one with the lower score has its
score zeroed in the final result, with ties broken by dropping the
earlier one. -/
theorem C6_merge_small_scenes_spacing (frames : List Frame) (minSize : Nat) :
    (∀ i j, scAt (merge_small_scenes frames minSize) i →
        scAt (merge_small_scenes frames minSize) j → i < j →
        (∀ k, i < k → k < j → ¬ scAt (merge_small_scenes frames minSize) k) →
        minSize ≤ j - i ∨ i = 0 ∨ j + 1 = frames.length) ∧
    (∀ fuel i, i < frames.length →
        find_next_scene frames i - i < minSize →
        find_next_scene frames i ≠ frames.length →
        ((frames.getD (find_next_scene frames i) default).scscore <
            (frames.getD i default).scscore →
          ((merge_small_scenes_loop minSize (fuel + 1) frames i).getD
            (find_next_scene frames i) default).scscore = 0) ∧
        (¬ (frames.getD (find_next_scene frames i) default).scscore <
            (frames.getD i default).scscore →
          ((merge_small_scenes_loop minSize (fuel + 1) frames i).getD i default).scscore
            = 0)) := by
  constructor
  · intro i j hi hj hij hcons
    left
    have hs := merge_loop_spaced minSize (frames.length + scCount frames + 1) frames 0
      (by omega) (by omega)
      (by
        intro a b _ _ hab hble _
        omega)
      (by
        intro _ _ k hk
        exact absurd hk (by omega))
    unfold merge_small_scenes at hi hj hcons
    exact hs i j hi hj hij (le_of_lt hj.1) hcons
  · intro fuel i hN hA hB
    have hnlen : find_next_scene frames i < frames.length :=
      lt_of_le_of_ne (find_next_scene_le frames i (le_of_lt hN)) hB
    constructor
    · intro hC
      simp only [merge_small_scenes_loop]
      rw [if_pos hN, if_neg (by omega), if_neg hB, if_pos hC]
      apply merge_loop_zero_stable
      rw [getD_zeroSc_self frames _ hnlen]
    · intro hC
      simp only [merge_small_scenes_loop]
      rw [if_pos hN, if_neg (by omega), if_neg hB, if_neg hC]
      apply merge_loop_zero_stable
      rw [getD_zeroSc_self frames _ hN]

/-- Witness for C6: two adjacent scene-change frames with
`min_scene_frame_count = 1` survive at distance 1 (part one), and with
two candidates at distance `1 < 5` the lower-scoring one is zeroed
(part two). -/
theorem C6_merge_small_scenes_spacing_witness :
    (scAt (merge_small_scenes [scFrame 1, scFrame 1] 1) 0 ∧
      scAt (merge_small_scenes [scFrame 1, scFrame 1] 1) 1 ∧
      (1 ≤ 1 - 0 ∨ (0 : Nat) = 0 ∨ 1 + 1 = ([scFrame 1, scFrame 1] : List Frame).length)) ∧
    ((([scFrame 2, scFrame 1] : List Frame).getD
        (find_next_scene [scFrame 2, scFrame 1] 0) default).scscore <
      (([scFrame 2, scFrame 1] : List Frame).getD 0 default).scscore ∧
    ((merge_small_scenes_loop 5 (0 + 1) [scFrame 2, scFrame 1] 0).getD
        (find_next_scene [scFrame 2, scFrame 1] 0) default).scscore = 0) := by
  have hf0 : find_next_scene [scFrame 1, scFrame 1] 0 = 1 := by
    norm_num [find_next_scene, find_next_scene_loop, scFrame,
      List.getD_cons_zero, List.getD_cons_succ]
  have hf1 : find_next_scene [scFrame 1, scFrame 1] 1 = 2 := by
    norm_num [find_next_scene, find_next_scene_loop, scFrame,
      List.getD_cons_zero, List.getD_cons_succ]
  have hcount : scCount [scFrame 1, scFrame 1] = 2 := by
    norm_num [scCount, scFrame, List.countP_cons, decide_eq_true_eq]
  have heval : merge_small_scenes [scFrame 1, scFrame 1] 1 = [scFrame 1, scFrame 1] := by
    unfold merge_small_scenes
    rw [hcount]
    norm_num [merge_small_scenes_loop, hf0, hf1]
  have hsc0 : scAt (merge_small_scenes [scFrame 1, scFrame 1] 1) 0 := by
    rw [heval]
    exact ⟨by norm_num, by norm_num [scFrame, List.getD_cons_zero]⟩
  have hsc1 : scAt (merge_small_scenes [scFrame 1, scFrame 1] 1) 1 := by
    rw [heval]
    exact ⟨by norm_num, by norm_num [scFrame, List.getD_cons_zero, List.getD_cons_succ]⟩
  have hg0 : find_next_scene [scFrame 2, scFrame 1] 0 = 1 := by
    norm_num [find_next_scene, find_next_scene_loop, scFrame,
      List.getD_cons_zero, List.getD_cons_succ]
  have hC : (([scFrame 2, scFrame 1] : List Frame).getD
      (find_next_scene [scFrame 2, scFrame 1] 0) default).scscore <
      (([scFrame 2, scFrame 1] : List Frame).getD 0 default).scscore := by
    rw [hg0]
    norm_num [scFrame, List.getD_cons_zero, List.getD_cons_succ]
  refine ⟨⟨hsc0, hsc1, ?_⟩, hC, ?_⟩
  · exact (C6_merge_small_scenes_spacing [scFrame 1, scFrame 1] 1).1 0 1 hsc0 hsc1
      (by omega) (by intro k hk1 hk2; exact absurd hk2 (by omega))
  · refine ((C6_merge_small_scenes_spacing [scFrame 2, scFrame 1] 5).2 0 0
      (by norm_num) ?_ ?_).1 hC
    · rw [hg0]
      norm_num
    · rw [hg0]
      norm_num

/-! ### C1: the dub assembler tiles the primary timeline -/

theorem segChain_append {lo mid hi : Int} :
    ∀ {l1 l2 : List OutputSegment}, segChain lo mid l1 → segChain mid hi l2 →
      segChain lo hi (l1 ++ l2) := by
  intro l1
  induction l1 generalizing lo with
  | nil =>
    intro l2 h1 h2
    have : lo = mid := h1
    rw [List.nil_append, this]
    exact h2
  | cons s l1 ih =>
    intro l2 h1 h2
    exact ⟨h1.1, ih h1.2 h2⟩

theorem segChain_ne_nil {lo hi : Int} {l : List OutputSegment} (h : segChain lo hi l)
    (hne : lo ≠ hi) : l ≠ [] := by
  cases l with
  | nil => exact absurd (show lo = hi from h) hne
  | cons s l => exact List.cons_ne_nil s l

theorem segChain_head {lo hi : Int} {l : List OutputSegment} (h : segChain lo hi l) :
    ∀ s, l.head? = some s → s.output_segment.start = lo := by
  cases l with
  | nil => intro s hs; exact absurd hs (by simp)
  | cons a l =>
    intro s hs
    simp only [List.head?_cons, Option.some.injEq] at hs
    subst hs
    exact h.1

theorem segChain_chain' : ∀ (l : List OutputSegment) (lo hi : Int), segChain lo hi l →
    List.Chain' (fun s t => s.output_segment.«end» = t.output_segment.start) l := by
  intro l
  induction l with
  | nil => intro lo hi _; exact List.chain'_nil
  | cons a l ih =>
    intro lo hi h
    rw [List.chain'_cons']
    refine ⟨?_, ih _ hi h.2⟩
    intro b hb
    exact (segChain_head h.2 b hb).symm

theorem segChain_getLast : ∀ (l : List OutputSegment) (lo hi : Int), segChain lo hi l →
    ∀ s, l.getLast? = some s → s.output_segment.«end» = hi := by
  intro l
  induction l with
  | nil => intro lo hi _ s hs; exact absurd hs (by simp)
  | cons a l ih =>
    intro lo hi h s hs
    cases l with
    | nil =>
      simp only [List.getLast?_singleton, Option.some.injEq] at hs
      subst hs
      exact h.2
    | cons b l' =>
      rw [List.getLast?_cons_cons] at hs
      exact ih _ hi h.2 s hs

theorem dubComputeLoop_spec : ∀ (ms : List VideoMatch) (curtime : Int),
    List.Chain' (fun m m' => m.a.start ≤ m'.a.start) ms →
    List.Chain' (fun m m' => m.a.«end» ≤ m'.a.start) ms →
    (∀ m, ms.head? = some m → curtime ≤ m.a.start) →
    segChain curtime (dubComputeLoop curtime ms).2 (dubComputeLoop curtime ms).1 ∧
    (ms = [] → (dubComputeLoop curtime ms).2 = curtime) ∧
    (∀ m, ms.getLast? = some m → (dubComputeLoop curtime ms).2 = m.a.«end») ∧
    (∀ s ∈ (dubComputeLoop curtime ms).1, s.source_id = 1 →
      s.output_segment.start ≠ s.output_segment.«end») := by
  intro ms
  induction ms with
  | nil =>
    intro curtime _ _ _
    refine ⟨rfl, fun _ => rfl, ?_, ?_⟩
    · intro m hm; exact absurd hm (by simp)
    · intro s hs; exact absurd (List.mem_nil_iff s |>.mp hs) (fun h => h)
  | cons m rest ih =>
    intro curtime hsort hnov hhead
    have hm : curtime ≤ m.a.start := hhead m rfl
    rw [List.chain'_cons'] at hsort hnov
    obtain ⟨hsort1, hsort2⟩ := hsort
    obtain ⟨hnov1, hnov2⟩ := hnov
    by_cases hdur : m.a.duration = 0
    · -- the zero-duration match is skipped
      have hse : m.a.«end» = m.a.start := by
        unfold TimeSegment.duration at hdur
        omega
      by_cases hgap : curtime < m.a.start
      · have heq : dubComputeLoop curtime (m :: rest) =
            (({ output_segment := ⟨curtime, m.a.start⟩, source_id := 0,
                source_segment := ⟨curtime, m.a.start⟩ } : OutputSegment) ::
              (dubComputeLoop m.a.start rest).1,
             (dubComputeLoop m.a.start rest).2) := by
          simp only [dubComputeLoop, if_pos hgap, if_pos hdur]
          rfl
        obtain ⟨ih1, ih2, ih3, ih4⟩ := ih m.a.start hsort2 hnov2 (by
          intro m' hm'
          have := hsort1 m' hm'
          exact this)
        rw [heq]
        refine ⟨⟨rfl, ih1⟩, ?_, ?_, ?_⟩
        · intro h; exact absurd h (List.cons_ne_nil m rest)
        · intro lm hlm
          cases rest with
          | nil =>
            simp only [List.getLast?_singleton, Option.some.injEq] at hlm
            subst hlm
            rw [ih2 rfl, hse]
          | cons b l' =>
            rw [List.getLast?_cons_cons] at hlm
            exact ih3 lm hlm
        · intro s hs hs1
          rcases List.mem_cons.mp hs with h | h
          · subst h
            exact absurd hs1 (by norm_num)
          · exact ih4 s h hs1
      · have hce : curtime = m.a.start := by omega
        have heq : dubComputeLoop curtime (m :: rest) =
            ((dubComputeLoop curtime rest).1, (dubComputeLoop curtime rest).2) := by
          simp only [dubComputeLoop, if_neg hgap, if_pos hdur]
          rfl
        obtain ⟨ih1, ih2, ih3, ih4⟩ := ih curtime hsort2 hnov2 (by
          intro m' hm'
          have := hsort1 m' hm'
          omega)
        rw [heq]
        refine ⟨ih1, ?_, ?_, ih4⟩
        · intro h; exact absurd h (List.cons_ne_nil m rest)
        · intro lm hlm
          cases rest with
          | nil =>
            simp only [List.getLast?_singleton, Option.some.injEq] at hlm
            subst hlm
            rw [ih2 rfl, hse, hce]
          | cons b l' =>
            rw [List.getLast?_cons_cons] at hlm
            exact ih3 lm hlm
    · -- the match emits a source-1 segment
      have hne : m.a.«end» ≠ m.a.start := by
        unfold TimeSegment.duration at hdur
        omega
      obtain ⟨ih1, ih2, ih3, ih4⟩ := ih m.a.«end» hsort2 hnov2 (by
        intro m' hm'
        have := hnov1 m' hm'
        exact this)
      by_cases hgap : curtime < m.a.start
      · have heq : dubComputeLoop curtime (m :: rest) =
            (({ output_segment := ⟨curtime, m.a.start⟩, source_id := 0,
                source_segment := ⟨curtime, m.a.start⟩ } : OutputSegment) ::
              ({ output_segment := m.a, source_id := 1, source_segment := m.b } :
                OutputSegment) :: (dubComputeLoop m.a.«end» rest).1,
             (dubComputeLoop m.a.«end» rest).2) := by
          simp only [dubComputeLoop, if_pos hgap, if_neg hdur]
          rfl
        rw [heq]
        refine ⟨⟨rfl, rfl, ih1⟩, ?_, ?_, ?_⟩
        · intro h; exact absurd h (List.cons_ne_nil m rest)
        · intro lm hlm
          cases rest with
          | nil =>
            simp only [List.getLast?_singleton, Option.some.injEq] at hlm
            subst hlm
            exact ih2 rfl
          | cons b l' =>
            rw [List.getLast?_cons_cons] at hlm
            exact ih3 lm hlm
        · intro s hs hs1
          rcases List.mem_cons.mp hs with h | h
          · subst h
            exact absurd hs1 (by norm_num)
          · rcases List.mem_cons.mp h with h' | h'
            · subst h'
              intro hc
              exact hne hc.symm
            · exact ih4 s h' hs1
      · have hce : curtime = m.a.start := by omega
        have heq : dubComputeLoop curtime (m :: rest) =
            (({ output_segment := m.a, source_id := 1, source_segment := m.b } :
                OutputSegment) :: (dubComputeLoop m.a.«end» rest).1,
             (dubComputeLoop m.a.«end» rest).2) := by
          simp only [dubComputeLoop, if_neg hgap, if_neg hdur]
          rfl
        rw [heq]
        refine ⟨⟨hce.symm, ih1⟩, ?_, ?_, ?_⟩
        · intro h; exact absurd h (List.cons_ne_nil m rest)
        · intro lm hlm
          cases rest with
          | nil =>
            simp only [List.getLast?_singleton, Option.some.injEq] at hlm
            subst hlm
            exact ih2 rfl
          | cons b l' =>
            rw [List.getLast?_cons_cons] at hlm
            exact ih3 lm hlm
        · intro s hs hs1
          rcases List.mem_cons.mp hs with h | h
          · subst h
            intro hc
            exact hne hc.symm
          · exact ih4 s h hs1

/-- C1: for every list of video matches that is sorted ascending by
`a.start`, has pairwise non-overlapping primary intervals
(`matches[i].a.end <= matches[i+1].a.start`), consists of well-formed
matches (primary start times are non-negative timeline positions), and
whose last `a.end` is at most the primary duration (itself
non-negative), `dubCompute` returns output segments that exactly tile
`[0, primaryDuration)`: the output is non-empty when the duration is
positive, the first segment starts at 0, each segment starts where the
previous one ends, the last segment ends at `primaryDuration`, and a
match with zero-duration `a` produces no `source_id = 1` output
segment. -/
theorem C1_dubCompute_tiles (ms : List VideoMatch) (dur : Int)
    (hsort : List.Chain' (fun m m' => m.a.start ≤ m'.a.start) ms)
    (hnov : List.Chain' (fun m m' => m.a.«end» ≤ m'.a.start) ms)
    (hnn : ∀ m ∈ ms, 0 ≤ m.a.start)
    (hlast : ∀ m, ms.getLast? = some m → m.a.«end» ≤ dur)
    (hdur : 0 ≤ dur) :
    (0 < dur → dubCompute ms dur ≠ []) ∧
    (∀ s, (dubCompute ms dur).head? = some s → s.output_segment.start = 0) ∧
    List.Chain' (fun s t => s.output_segment.«end» = t.output_segment.start)
      (dubCompute ms dur) ∧
    (∀ s, (dubCompute ms dur).getLast? = some s → s.output_segment.«end» = dur) ∧
    (∀ m ∈ ms, m.a.duration = 0 → ∀ s ∈ dubCompute ms dur, s.source_id = 1 →
      s.output_segment ≠ m.a) := by
  obtain ⟨hchain, hemp, hlastend, hsrc⟩ := dubComputeLoop_spec ms 0 hsort hnov (by
    intro m hm
    apply hnn
    cases ms with
    | nil => exact absurd hm (by simp)
    | cons a l =>
      simp only [List.head?_cons, Option.some.injEq] at hm
      rw [← hm]
      exact List.mem_cons_self a l)
  have htle : (dubComputeLoop 0 ms).2 ≤ dur := by
    cases ms with
    | nil => rw [hemp rfl]; exact hdur
    | cons a l =>
      obtain ⟨lm, hlm⟩ : ∃ lm, (a :: l).getLast? = some lm :=
        ⟨(a :: l).getLast (by simp), List.getLast?_eq_getLast _ _⟩
      rw [hlastend lm hlm]
      exact hlast lm hlm
  have hout : segChain 0 dur (dubCompute ms dur) := by
    unfold dubCompute
    by_cases hfin : (dubComputeLoop 0 ms).2 < dur
    · rw [if_pos hfin]
      exact segChain_append hchain ⟨rfl, rfl⟩
    · rw [if_neg hfin]
      have : (dubComputeLoop 0 ms).2 = dur := by omega
      exact this ▸ hchain
  refine ⟨fun hpos => segChain_ne_nil hout (by omega), segChain_head hout,
    segChain_chain' _ _ _ hout, segChain_getLast _ _ _ hout, ?_⟩
  intro m hmem hd0 s hs hs1
  have hse : m.a.«end» = m.a.start := by
    unfold TimeSegment.duration at hd0
    omega
  have hs' : s ∈ (dubComputeLoop 0 ms).1 := by
    unfold dubCompute at hs
    by_cases hfin : (dubComputeLoop 0 ms).2 < dur
    · rw [if_pos hfin] at hs
      rcases List.mem_append.mp hs with h | h
      · exact h
      · simp only [List.mem_singleton] at h
        subst h
        exact absurd hs1 (by norm_num)
    · rw [if_neg hfin] at hs
      exact hs
  have := hsrc s hs' hs1
  intro hc
  rw [hc] at this
  exact this hse.symm

/-- Witness for C1: a single match `a = [2,5)`, `b = [100,103)` over a
10-millisecond primary timeline. -/
theorem C1_dubCompute_tiles_witness :
    (List.Chain' (fun m m' => m.a.start ≤ m'.a.start)
        [(⟨⟨2, 5⟩, ⟨100, 103⟩⟩ : VideoMatch)] ∧
      List.Chain' (fun m m' => m.a.«end» ≤ m'.a.start)
        [(⟨⟨2, 5⟩, ⟨100, 103⟩⟩ : VideoMatch)] ∧
      (∀ m ∈ [(⟨⟨2, 5⟩, ⟨100, 103⟩⟩ : VideoMatch)], 0 ≤ m.a.start) ∧
      (0 : Int) ≤ 10) ∧
    ((0 < (10 : Int) → dubCompute [(⟨⟨2, 5⟩, ⟨100, 103⟩⟩ : VideoMatch)] 10 ≠ []) ∧
      (∀ s, (dubCompute [(⟨⟨2, 5⟩, ⟨100, 103⟩⟩ : VideoMatch)] 10).head? = some s →
        s.output_segment.start = 0) ∧
      List.Chain' (fun s t => s.output_segment.«end» = t.output_segment.start)
        (dubCompute [(⟨⟨2, 5⟩, ⟨100, 103⟩⟩ : VideoMatch)] 10) ∧
      (∀ s, (dubCompute [(⟨⟨2, 5⟩, ⟨100, 103⟩⟩ : VideoMatch)] 10).getLast? = some s →
        s.output_segment.«end» = 10) ∧
      (∀ m ∈ [(⟨⟨2, 5⟩, ⟨100, 103⟩⟩ : VideoMatch)], m.a.duration = 0 →
        ∀ s ∈ dubCompute [(⟨⟨2, 5⟩, ⟨100, 103⟩⟩ : VideoMatch)] 10, s.source_id = 1 →
          s.output_segment ≠ m.a)) :=
  ⟨⟨List.chain'_singleton _, List.chain'_singleton _,
      by
        intro m hm
        simp only [List.mem_singleton] at hm
        subst hm
        norm_num,
      by norm_num⟩,
    C1_dubCompute_tiles [(⟨⟨2, 5⟩, ⟨100, 103⟩⟩ : VideoMatch)] 10
      (List.chain'_singleton _) (List.chain'_singleton _)
      (by
        intro m hm
        simp only [List.mem_singleton] at hm
        subst hm
        norm_num)
      (by
        intro m hm
        simp only [List.getLast?_singleton, Option.some.injEq] at hm
        subst hm
        norm_num)
      (by norm_num)⟩

/-! ### C9: the scan ranges of the border-silencing pass -/

/-- C9: `silenceborders(frames, n)` with the default `n = 10` (as
invoked by `MatchDetector::run` on the primary catalog) scans exactly
the scan ranges `[begin, begin + 10)` and `[rbegin, rbegin + 10)`.
When the catalog holds at least 10 frames every access of the pass is
in bounds and the pass completes (the out-of-range access is
unreachable), whereas for a non-empty catalog with fewer than 10
frames both scan ranges extend past the frame array (undefined
behaviour, modelled as `none`). -/
theorem C9_silenceborders_bounds (frames : List Frame) :
    (10 ≤ frames.length → (silenceborders frames 10).isSome = true) ∧
    (0 < frames.length → frames.length < 10 → silenceborders frames 10 = none) := by
  constructor
  · intro h
    unfold silenceborders
    rw [if_neg (by omega)]
    rfl
  · intro _ h
    unfold silenceborders
    rw [if_pos h]

/-- Witness for C9 at a ten-frame catalog and at a five-frame
catalog. -/
theorem C9_silenceborders_bounds_witness :
    (10 ≤ (List.replicate 10 frameZero).length ∧
      0 < (List.replicate 5 frameZero).length ∧ (List.replicate 5 frameZero).length < 10) ∧
    (silenceborders (List.replicate 10 frameZero) 10).isSome = true ∧
    silenceborders (List.replicate 5 frameZero) 10 = none :=
  ⟨⟨by decide, by decide, by decide⟩,
    (C9_silenceborders_bounds (List.replicate 10 frameZero)).1 (by decide),
    (C9_silenceborders_bounds (List.replicate 5 frameZero)).2 (by decide) (by decide)⟩

/-! ### C3: helper lemmas about spans, tilings and folds -/

theorem usub_lt (a b : Nat) : usub a b < 2 ^ 64 := by
  unfold usub
  have h2 : (((2 ^ 64 : Nat) : Int)) = 18446744073709551616 := by norm_num
  rw [h2]
  omega

theorem FrameSpan.endOffset_def (s : FrameSpan) : s.endOffset = s.first + s.count := rfl

theorem moveStartOffsetTo_def (s : FrameSpan) (dest : Nat) :
    s.moveStartOffsetTo dest = ⟨dest, usub (s.first + s.count) dest⟩ := rfl

theorem moveEndOffset_def (s : FrameSpan) (dest : Nat) :
    s.moveEndOffset dest = ⟨s.first, usub dest s.first⟩ := rfl

theorem mkFrameSpan_eq_of_le (video : List Frame) (offset n : Nat)
    (h : offset + n ≤ video.length) : mkFrameSpan video offset n = ⟨offset, n⟩ := by
  unfold mkFrameSpan
  simp only
  rw [FrameSpan.mk.injEq]
  omega

theorem getLastD_eq_getD : ∀ (l : List Frame) (d : Frame), l ≠ [] →
    l.getLastD d = l.getD (l.length - 1) d := by
  intro l
  induction l with
  | nil => intro d h; exact absurd rfl h
  | cons a rest ih =>
    intro d _
    cases rest with
    | nil => rfl
    | cons b r =>
      have h1 : (a :: b :: r).getLastD d = (b :: r).getLastD d := rfl
      rw [h1, ih d (by simp)]
      have h2 : (a :: b :: r).length - 1 = r.length + 1 := by simp
      have h4 : (b :: r).length - 1 = r.length := by simp
      rw [h2, h4, List.getD_cons_succ]

theorem spanGetLastD_eq_getD : ∀ (l : List FrameSpan) (d : FrameSpan), l ≠ [] →
    l.getLastD d = l.getD (l.length - 1) d := by
  intro l
  induction l with
  | nil => intro d h; exact absurd rfl h
  | cons a rest ih =>
    intro d _
    cases rest with
    | nil => rfl
    | cons b r =>
      have h1 : (a :: b :: r).getLastD d = (b :: r).getLastD d := rfl
      rw [h1, ih d (by simp)]
      have h2 : (a :: b :: r).length - 1 = r.length + 1 := by simp
      have h4 : (b :: r).length - 1 = r.length := by simp
      rw [h2, h4, List.getD_cons_succ]

theorem foldl_preserves {α β : Type} (P : β → Prop) (f : β → α → β) :
    ∀ (l : List α) (st : β), P st → (∀ b a, a ∈ l → P b → P (f b a)) → P (l.foldl f st) := by
  intro l
  induction l with
  | nil => intro st h _; exact h
  | cons x xs ih =>
    intro st h hstep
    exact ih (f st x) (hstep st x (List.mem_cons_self x xs) h)
      (fun b a ha hb => hstep b a (List.mem_cons_of_mem x ha) hb)

theorem tiles_lo_le_hi : ∀ (l : List FrameSpan) (lo hi : Nat), tiles lo hi l → lo ≤ hi := by
  intro l
  induction l with
  | nil => intro lo hi h; exact le_of_eq h
  | cons s rest ih =>
    intro lo hi h
    obtain ⟨h1, h2, h3⟩ := h
    have h4 := ih _ _ h3
    rw [FrameSpan.endOffset_def] at h2 h4
    omega

theorem tiles_mem_bounds : ∀ (l : List FrameSpan) (lo hi : Nat), tiles lo hi l →
    ∀ s ∈ l, lo ≤ s.first ∧ s.first + s.count ≤ hi ∧ 0 < s.count := by
  intro l
  induction l with
  | nil => intro lo hi _ s hs; exact absurd hs (List.not_mem_nil s)
  | cons t rest ih =>
    intro lo hi h s hs
    obtain ⟨h1, h2, h3⟩ := h
    have hhi := tiles_lo_le_hi rest _ _ h3
    rw [FrameSpan.endOffset_def] at h2 h3 hhi
    rcases List.mem_cons.1 hs with heq | hmem
    · subst heq; omega
    · have := ih _ _ h3 s hmem
      omega

theorem tiles_append_split : ∀ (l1 l2 : List FrameSpan) (lo hi : Nat),
    tiles lo hi (l1 ++ l2) → ∃ mid, tiles lo mid l1 ∧ tiles mid hi l2 := by
  intro l1
  induction l1 with
  | nil => exact fun l2 lo hi h => ⟨lo, rfl, h⟩
  | cons s r ih =>
    intro l2 lo hi h
    obtain ⟨h1, h2, h3⟩ := h
    obtain ⟨mid, hm1, hm2⟩ := ih l2 _ _ h3
    exact ⟨mid, ⟨h1, h2, hm1⟩, hm2⟩

theorem tiles_pairwise : ∀ (l : List FrameSpan) (lo hi : Nat), tiles lo hi l →
    List.Pairwise (fun s t => s.first + s.count ≤ t.first) l := by
  intro l
  induction l with
  | nil => intro _ _ _; exact List.Pairwise.nil
  | cons s rest ih =>
    intro lo hi h
    obtain ⟨h1, h2, h3⟩ := h
    refine List.Pairwise.cons ?_ (ih _ _ h3)
    intro t ht
    have := tiles_mem_bounds rest _ _ h3 t ht
    exact this.1

theorem tiles_getD_succ : ∀ (l : List FrameSpan) (lo hi : Nat), tiles lo hi l →
    ∀ m, m + 1 < l.length →
      (l.getD m default).first + (l.getD m default).count = (l.getD (m + 1) default).first := by
  intro l
  induction l with
  | nil => intro lo hi _ m hm; simp at hm
  | cons s rest ih =>
    intro lo hi h m hm
    obtain ⟨h1, h2, h3⟩ := h
    cases m with
    | zero =>
      cases rest with
      | nil => simp at hm
      | cons t r =>
        obtain ⟨ht1, _, _⟩ := h3
        rw [List.getD_cons_zero, List.getD_cons_succ, List.getD_cons_zero]
        rw [FrameSpan.endOffset_def] at ht1
        omega
    | succ m =>
      rw [List.getD_cons_succ, List.getD_cons_succ]
      exact ih _ _ h3 m (by simpa using hm)

theorem tiles_getD_bounds : ∀ (l : List FrameSpan) (lo hi : Nat), tiles lo hi l →
    ∀ m, m < l.length →
      lo ≤ (l.getD m default).first ∧ (l.getD m default).first + (l.getD m default).count ≤ hi ∧
      0 < (l.getD m default).count := by
  intro l lo hi h m hm
  have hmem : l.getD m default ∈ l := by
    rw [List.getD_eq_getElem?_getD, List.getElem?_eq_getElem hm]
    exact List.getElem_mem hm
  exact tiles_mem_bounds l lo hi h _ hmem

theorem tiles_getD_mono : ∀ (l : List FrameSpan) (lo hi : Nat), tiles lo hi l →
    ∀ m k, m ≤ k → k < l.length →
      (l.getD m default).first ≤ (l.getD k default).first := by
  intro l
  induction l with
  | nil => intro lo hi _ m k _ hk; simp at hk
  | cons s rest ih =>
    intro lo hi h m k hmk hk
    obtain ⟨h1, h2, h3⟩ := h
    cases m with
    | zero =>
      cases k with
      | zero => exact le_refl _
      | succ k =>
        rw [List.getD_cons_zero, List.getD_cons_succ]
        obtain ⟨hb1, _, _⟩ := tiles_getD_bounds rest _ _ h3 k (by simpa using hk)
        rw [FrameSpan.endOffset_def] at h2 hb1
        omega
    | succ m =>
      cases k with
      | zero => omega
      | succ k =>
        rw [List.getD_cons_succ, List.getD_cons_succ]
        exact ih _ _ h3 m k (by omega) (by simpa using hk)

theorem tiles_getD_last : ∀ (l : List FrameSpan) (lo hi : Nat), tiles lo hi l → l ≠ [] →
    (l.getD (l.length - 1) default).first + (l.getD (l.length - 1) default).count = hi := by
  intro l
  induction l with
  | nil => intro lo hi _ h; exact absurd rfl h
  | cons s rest ih =>
    intro lo hi h _
    obtain ⟨h1, h2, h3⟩ := h
    cases rest with
    | nil =>
      rw [show ([s] : List FrameSpan).length - 1 = 0 from rfl, List.getD_cons_zero]
      exact h3
    | cons t r =>
      have hlen : (s :: t :: r).length - 1 = ((t :: r).length - 1) + 1 := by simp
      rw [hlen, List.getD_cons_succ]
      exact ih _ _ h3 (by simp)

theorem split_at_scframes_loop_nil (video : List Frame) (span : FrameSpan)
    (fuel i : Nat) (h : ¬ i < span.size) :
    split_at_scframes_loop video span fuel i = [] := by
  cases fuel with
  | zero => rfl
  | succ fuel => simp only [split_at_scframes_loop]; rw [if_neg h]

theorem split_at_scframes_loop_tiles (video : List Frame) (span : FrameSpan)
    (hwf : span.first + span.count ≤ video.length) :
    ∀ fuel i, i < span.size → span.size - i ≤ fuel →
      tiles (span.first + i) (span.first + span.count)
        (split_at_scframes_loop video span fuel i) := by
  intro fuel
  induction fuel with
  | zero => intro i h hf; exact absurd hf (by omega)
  | succ fuel ih =>
    intro i h hf
    have hj1 : i + 1 ≤ min (find_next_scframe video span i) span.size := by
      have := find_next_scframe_ge video span i
      unfold FrameSpan.size at h ⊢
      omega
    have hj2 : min (find_next_scframe video span i) span.size ≤ span.size := by omega
    have hsz : span.size = span.count := rfl
    simp only [split_at_scframes_loop]
    rw [if_pos h]
    have hsub : span.subspan video i (min (find_next_scframe video span i) span.size - i) =
        FrameSpan.mk (span.first + i) (min (find_next_scframe video span i) span.size - i) := by
      refine subspan_eq_of_le video span i _ ?_
      rw [hsz] at hj2
      omega
    rw [hsub]
    refine ⟨rfl, ?_, ?_⟩
    · rw [FrameSpan.endOffset_def]
      simp only
      omega
    · have hend : (FrameSpan.mk (span.first + i)
          (min (find_next_scframe video span i) span.size - i)).endOffset =
          span.first + min (find_next_scframe video span i) span.size := by
        rw [FrameSpan.endOffset_def]
        simp only
        omega
      rw [hend]
      by_cases hlt : min (find_next_scframe video span i) span.size < span.size
      · exact ih _ hlt (by omega)
      · have he : min (find_next_scframe video span i) span.size = span.size := by omega
        rw [split_at_scframes_loop_nil video span fuel _ (by omega)]
        show span.first + min (find_next_scframe video span i) span.size =
          span.first + span.count
        rw [he, hsz]

theorem split_at_scframes_tiles (video : List Frame) (span : FrameSpan)
    (hwf : span.first + span.count ≤ video.length) :
    tiles span.first (span.first + span.count) (split_at_scframes video span) := by
  unfold split_at_scframes
  by_cases h : 0 < span.size
  · have := split_at_scframes_loop_tiles video span hwf span.size 0 h (by omega)
    simpa using this
  · rw [split_at_scframes_loop_nil video span _ _ h]
    show span.first = span.first + span.count
    unfold FrameSpan.size at h
    omega

theorem extract_segments_loop_tiles_gen (video : List Frame) (span : FrameSpan)
    (hwf : span.first + span.count ≤ video.length) :
    ∀ fuel i, i < span.size → span.size - i ≤ fuel →
      tiles (span.first + i) (span.first + span.count)
        (extract_segments_loop video span fuel i) := by
  intro fuel
  induction fuel with
  | zero => intro i h hf; exact absurd hf (by omega)
  | succ fuel ih =>
    intro i h hf
    obtain ⟨he1, he2⟩ := find_segment_end_bounds video span i h
    have hsz : span.size = span.count := rfl
    simp only [extract_segments_loop]
    rw [if_pos h]
    have hsub : span.subspan video i (find_segment_end video span i - i) =
        FrameSpan.mk (span.first + i) (find_segment_end video span i - i) := by
      refine subspan_eq_of_le video span i _ ?_
      rw [hsz] at he2
      omega
    rw [hsub]
    refine ⟨rfl, ?_, ?_⟩
    · rw [FrameSpan.endOffset_def]
      simp only
      omega
    · have hend : (FrameSpan.mk (span.first + i)
          (find_segment_end video span i - i)).endOffset =
          span.first + find_segment_end video span i := by
        rw [FrameSpan.endOffset_def]
        simp only
        omega
      rw [hend]
      by_cases hlt : find_segment_end video span i < span.size
      · exact ih _ hlt (by omega)
      · have hee : find_segment_end video span i = span.size := by omega
        rw [extract_segments_loop_nil video span fuel _ (by omega)]
        show span.first + find_segment_end video span i = span.first + span.count
        rw [hee, hsz]

theorem extract_segments_tiles_gen (video : List Frame) (span : FrameSpan)
    (hwf : span.first + span.count ≤ video.length) :
    tiles span.first (span.first + span.count) (extract_segments video span) := by
  unfold extract_segments
  by_cases h : 0 < span.size
  · have := extract_segments_loop_tiles_gen video span hwf span.size 0 h (by omega)
    simpa using this
  · rw [extract_segments_loop_nil video span _ _ h]
    show span.first = span.first + span.count
    unfold FrameSpan.size at h
    omega

theorem fbmaLoop_pattern (va vb : List Frame) (p s : FrameSpan) (imax : Nat) :
    ∀ fuel i bestavg res,
      (fbmaLoop va vb p s imax fuel i bestavg res).pattern = res.pattern := by
  intro fuel
  induction fuel with
  | zero => intro i bestavg res; rfl
  | succ fuel ih =>
    intro i bestavg res
    simp only [fbmaLoop]
    split
    · split
      · rw [ih]
      · exact ih _ _ _
    · rfl

theorem find_best_matching_area_ex_pattern (va vb : List Frame) (p s : FrameSpan) :
    (find_best_matching_area_ex va vb p s).pattern = p := by
  unfold find_best_matching_area_ex
  split
  · rfl
  · rw [fbmaLoop_pattern]

theorem merge_eq (video : List Frame) (a b : FrameSpan) (hab : a.first ≤ b.first)
    (hwf : b.first + b.count ≤ video.length) (h64 : video.length < 2 ^ 64) :
    merge video a b = ⟨a.first, b.first + b.count - a.first⟩ := by
  have hc : ¬ (b.startOffset < a.startOffset) := by
    unfold FrameSpan.startOffset
    omega
  simp only [merge, if_neg hc]
  show mkFrameSpan video a.first (usub (b.first + b.count) a.first) = _
  rw [usub_of_le (by omega) (by omega)]
  exact mkFrameSpan_eq_of_le video _ _ (by omega)

theorem compute_symetric_eq (s0 s1 : FrameSpan) (hchain : s0.first + s0.count = s1.first)
    (h0 : 0 < s0.count) (h1 : 0 < s1.count) :
    ∃ n, 1 ≤ n ∧ n ≤ s0.count ∧ n ≤ s1.count ∧
      compute_symetric_span_around_keyframe s0 s1 5 = ⟨s1.first - n, n + n⟩ := by
  refine ⟨min (min 5 s0.count) s1.count, by omega, by omega, by omega, ?_⟩
  unfold compute_symetric_span_around_keyframe FrameSpan.widenLeft FrameSpan.size
  simp only
  rw [FrameSpan.mk.injEq]
  constructor <;> omega

theorem mkFrameSpan_le (video : List Frame) (offset n : Nat) :
    (mkFrameSpan video offset n).first + (mkFrameSpan video offset n).count ≤
      video.length := by
  unfold mkFrameSpan
  simp only
  omega

theorem left_first (s : FrameSpan) (n : Nat) : (s.left n).first = s.first := by
  unfold FrameSpan.left
  split <;> rfl

theorem left_le (s : FrameSpan) (n : Nat) :
    (s.left n).first + (s.left n).count ≤ s.first + s.count := by
  unfold FrameSpan.left FrameSpan.size
  split
  · exact le_refl _
  · simp only
    omega

theorem right_bounds (s : FrameSpan) (n : Nat) :
    s.first ≤ (s.right n).first ∧
      (s.right n).first + (s.right n).count ≤ s.first + s.count := by
  unfold FrameSpan.right FrameSpan.size FrameSpan.endOffset
  split
  · exact ⟨le_refl _, le_refl _⟩
  · rename_i hc
    simp only
    omega

theorem fbmStep_inv (va vb : List Frame) (a b : FrameSpan) (st : Int × Int × Int)
    (xx yy : Nat) (hx : xx < a.count) (hy : yy < b.count)
    (h : st = ((64 : Int), (-1 : Int), (-1 : Int)) ∨
      (st.1 < 64 ∧ 0 ≤ st.2.1 ∧ st.2.1 < (a.count : Int) ∧ 0 ≤ st.2.2 ∧
        st.2.2 < (b.count : Int))) :
    fbmStep va vb a b st xx yy = ((64 : Int), (-1 : Int), (-1 : Int)) ∨
    ((fbmStep va vb a b st xx yy).1 < 64 ∧ 0 ≤ (fbmStep va vb a b st xx yy).2.1 ∧
      (fbmStep va vb a b st xx yy).2.1 < (a.count : Int) ∧
      0 ≤ (fbmStep va vb a b st xx yy).2.2 ∧
      (fbmStep va vb a b st xx yy).2.2 < (b.count : Int)) := by
  obtain ⟨s1, s2, s3⟩ := st
  simp only [Prod.mk.injEq] at h
  simp only [fbmStep]
  split
  · rename_i hd
    right
    simp only
    rcases h with ⟨h1, _, _⟩ | ⟨h1, _⟩
    · subst h1
      refine ⟨by omega, by omega, by omega, by omega, by omega⟩
    · refine ⟨by omega, by omega, by omega, by omega, by omega⟩
  · split
    · rename_i hcond
      rcases h with ⟨h1, h2, h3⟩ | ⟨h1, h2, h3, h4, h5⟩
      · subst h2; subst h3
        have habs : |(-1 : Int) - (-1 : Int)| = 0 := by norm_num
        rw [habs] at hcond
        exact absurd hcond.2 (not_lt.mpr (abs_nonneg _))
      · right
        simp only
        refine ⟨h1, by omega, by omega, by omega, by omega⟩
    · rcases h with ⟨h1, h2, h3⟩ | hr
      · subst h1; subst h2; subst h3; exact Or.inl rfl
      · exact Or.inr hr

theorem find_best_match_bounds (va vb : List Frame) (a b : FrameSpan) (t : Int)
    (ht : t < 64) (ha : a.first + a.count < 2 ^ 64) (hb : b.first + b.count < 2 ^ 64)
    (x y : Nat) (h : find_best_match va vb a b t = some (x, y)) :
    a.first ≤ x ∧ x < a.first + a.count ∧ b.first ≤ y ∧ y < b.first + b.count := by
  have hinv := foldl_preserves
    (fun st : Int × Int × Int =>
      st = ((64 : Int), (-1 : Int), (-1 : Int)) ∨
      (st.1 < 64 ∧ 0 ≤ st.2.1 ∧ st.2.1 < (a.count : Int) ∧ 0 ≤ st.2.2 ∧
        st.2.2 < (b.count : Int)))
    (fun st x => (List.range b.size).foldl (fun st y => fbmStep va vb a b st x y) st)
    (List.range a.size) ((64 : Int), (-1 : Int), (-1 : Int))
    (Or.inl rfl)
    (by
      intro st xx hxx hst
      refine foldl_preserves
        (fun st : Int × Int × Int =>
          st = ((64 : Int), (-1 : Int), (-1 : Int)) ∨
          (st.1 < 64 ∧ 0 ≤ st.2.1 ∧ st.2.1 < (a.count : Int) ∧ 0 ≤ st.2.2 ∧
            st.2.2 < (b.count : Int)))
        (fun st2 yy => fbmStep va vb a b st2 xx yy)
        (List.range b.size) st hst ?_
      intro st2 yy hyy hst2
      exact fbmStep_inv va vb a b st2 xx yy (List.mem_range.1 hxx) (List.mem_range.1 hyy)
        hst2)
  simp only [find_best_match] at h
  split at h
  · rename_i hc
    simp only [Option.some.injEq, Prod.mk.injEq] at h
    obtain ⟨hxe, hye⟩ := h
    rcases hinv with hL | hR
    · rw [hL] at hc
      simp only at hc
      omega
    · obtain ⟨h1, h2, h3, h4, h5⟩ := hR
      have hca : ((2 ^ 64 : Nat) : Int) = 18446744073709551616 := by norm_num
      rw [hca] at hxe hye
      have hs : a.startOffset = a.first := rfl
      have hs2 : b.startOffset = b.first := rfl
      rw [hs] at hxe
      rw [hs2] at hye
      omega
  · exact absurd h (by simp)

theorem find_match_end_loop_bounds (va vb : List Frame) (params : Parameters) (speed : ℚ)
    (i_end j_end : Nat) (ht : params.frameRematchThreshold < 64)
    (hiend : i_end ≤ va.length) (hva : va.length < 2 ^ 64) (hvb : vb.length < 2 ^ 64) :
    ∀ fuel i j jreal, i < i_end →
      i ≤ (find_match_end_loop va vb params speed i_end j_end fuel i j jreal).1 ∧
      (find_match_end_loop va vb params speed i_end j_end fuel i j jreal).1 < i_end := by
  intro fuel
  induction fuel with
  | zero => intro i j jreal h; exact ⟨le_refl _, h⟩
  | succ fuel ih =>
    intro i j jreal h
    simp only [find_match_end_loop]
    split
    · rename_i hc
      split
      · obtain ⟨ih1, ih2⟩ := ih (i + 1) ((cppRound (jreal + speed)).toNat) (jreal + speed)
          hc.1
        exact ⟨by omega, ih2⟩
      · have hs1 : mkFrameSpan va (i + 1) (usub i_end (i + 1)) =
            ⟨i + 1, i_end - (i + 1)⟩ := by
          rw [usub_of_le (by omega) (by omega)]
          exact mkFrameSpan_eq_of_le va _ _ (by omega)
        split
        · exact ⟨le_refl _, h⟩
        · rename_i x y hm
          rw [hs1] at hm
          have hb1 : ((⟨i + 1, i_end - (i + 1)⟩ : FrameSpan).left 4).first +
              ((⟨i + 1, i_end - (i + 1)⟩ : FrameSpan).left 4).count ≤ i_end := by
            have := left_le ⟨i + 1, i_end - (i + 1)⟩ 4
            simp only at this
            omega
          have hf1 : ((⟨i + 1, i_end - (i + 1)⟩ : FrameSpan).left 4).first = i + 1 :=
            left_first _ 4
          have hb2 := mkFrameSpan_le vb ((cppRound (jreal + speed)).toNat)
            (usub j_end ((cppRound (jreal + speed)).toNat))
          have hb2l := left_le (mkFrameSpan vb ((cppRound (jreal + speed)).toNat)
            (usub j_end ((cppRound (jreal + speed)).toNat))) 4
          obtain ⟨hx1, hx2, _, _⟩ := find_best_match_bounds va vb _ _
            params.frameRematchThreshold ht (by omega) (by omega) x y hm
          obtain ⟨ihx1, ihx2⟩ := ih x y ((y : Nat) : ℚ) (by omega)
          exact ⟨by omega, ihx2⟩
    · exact ⟨le_refl _, h⟩

theorem find_match_end_bounds (va vb : List Frame) (i j : Nat) (speed : ℚ)
    (i_end j_end : Nat) (params : Parameters) (ht : params.frameRematchThreshold < 64)
    (hiend : i_end ≤ va.length) (hva : va.length < 2 ^ 64) (hvb : vb.length < 2 ^ 64)
    (h : i < i_end) :
    i + 1 ≤ (find_match_end va vb i j speed i_end j_end params).1 ∧
    (find_match_end va vb i j speed i_end j_end params).1 ≤ i_end := by
  obtain ⟨h1, h2⟩ := find_match_end_loop_bounds va vb params speed i_end j_end ht hiend
    hva hvb (i_end + 1) i j ((j : ℚ)) h
  simp only [find_match_end]
  split
  · split
    · simp only
      omega
    · omega
  · omega

theorem find_match_end_backward_loop_bounds (va vb : List Frame) (params : Parameters)
    (speed : ℚ) (i_min j_min : Nat) (ht : params.frameRematchThreshold < 64)
    (himin : i_min ≤ va.length) (hva : va.length < 2 ^ 64) (hvb : vb.length < 2 ^ 64) :
    ∀ fuel i j jreal, i < 2 ^ 64 → i_min ≤ i →
      i_min ≤ (find_match_end_backward_loop va vb params speed i_min j_min fuel i j jreal).1 ∧
      (find_match_end_backward_loop va vb params speed i_min j_min fuel i j jreal).1 ≤ i := by
  intro fuel
  induction fuel with
  | zero => intro i j jreal _ h; exact ⟨h, le_refl _⟩
  | succ fuel ih =>
    intro i j jreal h64 h
    simp only [find_match_end_backward_loop]
    split
    · rename_i hc
      split
      · obtain ⟨ih1, ih2⟩ := ih (i - 1) ((cppRound (jreal - speed)).toNat) (jreal - speed)
          (by omega) (by omega)
        exact ⟨ih1, by omega⟩
      · have hu : usub i i_min = i - i_min := usub_of_le (by omega) h64
        have hf1 : (mkFrameSpan va i_min (usub i i_min)).first = i_min := by
          rw [mkFrameSpan_first]
          omega
        have hc1 : (mkFrameSpan va i_min (usub i i_min)).count ≤ i - i_min := by
          rw [mkFrameSpan_count, hu]
          omega
        obtain ⟨hr1, hr2⟩ := right_bounds (mkFrameSpan va i_min (usub i i_min)) 4
        split
        · exact ⟨h, le_refl _⟩
        · rename_i x y hm
          have hb2 := mkFrameSpan_le vb j_min (usub j j_min)
          have hb2r := right_bounds (mkFrameSpan vb j_min (usub j j_min)) 4
          obtain ⟨hx1, hx2, _, _⟩ := find_best_match_bounds va vb _ _
            params.frameRematchThreshold ht (by omega) (by omega) x y hm
          obtain ⟨ihx1, ihx2⟩ := ih x y ((y : Nat) : ℚ) (by omega) (by omega)
          exact ⟨ihx1, by omega⟩
    · exact ⟨h, le_refl _⟩

theorem find_match_end_backward_bounds (va vb : List Frame) (i j : Nat) (speed : ℚ)
    (i_min j_min : Nat) (params : Parameters) (ht : params.frameRematchThreshold < 64)
    (himin : i_min ≤ va.length) (hva : va.length < 2 ^ 64) (hvb : vb.length < 2 ^ 64)
    (h64 : i < 2 ^ 64) (h : i_min ≤ i) :
    i_min ≤ (find_match_end_backward va vb i j speed i_min j_min params).1 ∧
    (find_match_end_backward va vb i j speed i_min j_min params).1 ≤ i := by
  obtain ⟨h1, h2⟩ := find_match_end_backward_loop_bounds va vb params speed i_min j_min
    ht himin hva hvb (i + 1) i j ((j : ℚ)) h64 h
  simp only [find_match_end_backward]
  split
  · split
    · simp only
      omega
    · omega
  · omega

theorem refine_extend_both_ends_pattern_bounds (va vb : List Frame) (params : Parameters)
    (speed : ℚ) (vid1_sc vid2_sc : Nat) (rp rm fsa : FrameSpan)
    (ht : params.frameRematchThreshold < 64)
    (h1 : 1 ≤ vid1_sc) (h2 : rp.first ≤ vid1_sc - 1) (h3 : vid1_sc < rp.first + rp.count)
    (hwf : rp.first + rp.count ≤ va.length) (hva : va.length < 2 ^ 64)
    (hvb : vb.length < 2 ^ 64) :
    rp.first ≤
      (refine_extend_both_ends va vb params speed vid1_sc vid2_sc rp rm fsa).1.first ∧
    (refine_extend_both_ends va vb params speed vid1_sc vid2_sc rp rm fsa).1.first +
      (refine_extend_both_ends va vb params speed vid1_sc vid2_sc rp rm fsa).1.count ≤
      rp.first + rp.count := by
  have hu1 : usub vid1_sc 1 = vid1_sc - 1 := usub_of_le (by omega) (by omega)
  have hso : rp.startOffset = rp.first := rfl
  simp only [refine_extend_both_ends, hu1]
  by_cases hstarts : starts_with_black_frames va rp = true
  · simp only [if_pos hstarts]
    obtain ⟨hb1, hb2⟩ := find_match_end_backward_bounds va vb (vid1_sc - 1) (usub vid2_sc 1)
      speed rp.startOffset fsa.startOffset params ht
      (show rp.first ≤ va.length by omega) hva hvb (by omega)
      (show rp.startOffset ≤ vid1_sc - 1 from h2)
    set r1 := (find_match_end_backward va vb (vid1_sc - 1) (usub vid2_sc 1) speed
      rp.startOffset fsa.startOffset params).1 with hr1
    have hus : usub (rp.first + rp.count) r1 = rp.first + rp.count - r1 :=
      usub_of_le (show r1 ≤ rp.first + rp.count by omega) (by omega)
    have hbmv : rp.moveStartOffsetTo r1 =
        ⟨r1, rp.first + rp.count - r1⟩ := by
      rw [moveStartOffsetTo_def, hus]
    rw [hbmv]
    by_cases hends : ends_with_black_frames va
        (⟨r1, rp.first + rp.count - r1⟩ : FrameSpan) = true
    · simp only [if_pos hends]
      have hee : (⟨r1, rp.first + rp.count - r1⟩ : FrameSpan).endOffset =
          rp.first + rp.count := by
        rw [FrameSpan.endOffset_def]
        simp only
        omega
      rw [hee]
      obtain ⟨hf1, hf2⟩ := find_match_end_bounds va vb vid1_sc vid2_sc speed
        (rp.first + rp.count) fsa.endOffset params ht (by omega) hva hvb h3
      set r2 := (find_match_end va vb vid1_sc vid2_sc speed (rp.first + rp.count)
        fsa.endOffset params).1 with hr2
      have hus2 : usub r2 r1 = r2 - r1 :=
        usub_of_le (show r1 ≤ r2 by omega) (by omega)
      have hmv : (⟨r1, rp.first + rp.count - r1⟩ : FrameSpan).moveEndOffset r2 =
          ⟨r1, r2 - r1⟩ := by
        rw [moveEndOffset_def]
        simp only
        rw [hus2]
      rw [hmv]
      dsimp only
      omega
    · simp only [if_neg hends]
      omega
  · simp only [if_neg hstarts]
    by_cases hends : ends_with_black_frames va rp = true
    · simp only [if_pos hends]
      have hre : rp.endOffset = rp.first + rp.count := rfl
      rw [hre]
      obtain ⟨hf1, hf2⟩ := find_match_end_bounds va vb vid1_sc vid2_sc speed
        (rp.first + rp.count) fsa.endOffset params ht (by omega) hva hvb h3
      set r2 := (find_match_end va vb vid1_sc vid2_sc speed (rp.first + rp.count)
        fsa.endOffset params).1 with hr2
      have hus2 : usub r2 rp.first = r2 - rp.first :=
        usub_of_le (show rp.first ≤ r2 by omega) (by omega)
      have hmv : rp.moveEndOffset r2 = ⟨rp.first, r2 - rp.first⟩ := by
        rw [moveEndOffset_def, hus2]
      rw [hmv]
      dsimp only
      omega
    · simp only [if_neg hends]
      omega

theorem refine_match_2scenes_pattern_bounds (va vb : List Frame) (dA dB : ℚ)
    (params : Parameters) (s0 s1 basematch fullSearchArea : FrameSpan)
    (ht : params.frameRematchThreshold < 64)
    (hchain : s0.first + s0.count = s1.first) (h0 : 0 < s0.count) (h1 : 0 < s1.count)
    (hwf : s1.first + s1.count ≤ va.length) (hva : va.length < 2 ^ 64)
    (hvb : vb.length < 2 ^ 64) :
    s0.first ≤
      (refine_match_2scenes va vb dA dB params s0 s1 basematch fullSearchArea).1.first ∧
    (refine_match_2scenes va vb dA dB params s0 s1 basematch fullSearchArea).1.first +
      (refine_match_2scenes va vb dA dB params s0 s1 basematch fullSearchArea).1.count ≤
      s1.first + s1.count := by
  obtain ⟨n, hn1, hn0, hns1, hcs⟩ := compute_symetric_eq s0 s1 hchain h0 h1
  have hbp : merge va s0 s1 = ⟨s0.first, s1.first + s1.count - s0.first⟩ :=
    merge_eq va s0 s1 (by omega) hwf hva
  simp only [refine_match_2scenes, hbp, hcs, find_best_matching_area_ex_pattern,
    FrameSpan.startOffset, FrameSpan.size]
  have hv1 : s1.first - n + (n + n) / 2 = s1.first := by omega
  rw [hv1]
  set v2 := (find_best_matching_area_ex va vb (⟨s1.first - n, n + n⟩ : FrameSpan)
      basematch).«match».first +
    (find_best_matching_area_ex va vb (⟨s1.first - n, n + n⟩ : FrameSpan)
      basematch).«match».count / 2 with hv2
  set st2 := estimate_speed_backward va vb dA dB params s0 s1
    (⟨s0.first, s1.first + s1.count - s0.first⟩ : FrameSpan) s1.first v2
    (estimate_speed_forward va vb dA dB params s1
      (⟨s0.first, s1.first + s1.count - s0.first⟩ : FrameSpan) basematch s1.first v2)
    with hst2
  split
  · constructor
    · dsimp only
      omega
    · dsimp only
      omega
  · rename_i sp hsp
    obtain ⟨c1, c2⟩ := refine_extend_both_ends_pattern_bounds va vb params sp s1.first v2
      (⟨s0.first, s1.first + s1.count - s0.first⟩ : FrameSpan) st2.2 fullSearchArea ht
      (by omega)
      (by dsimp only; omega)
      (by dsimp only; omega)
      (by dsimp only; omega)
      hva hvb
    dsimp only at c1 c2
    exact ⟨by omega, by omega⟩

theorem tiles_getD_zero {lo hi : Nat} {l : List FrameSpan} (h : tiles lo hi l)
    (hne : l ≠ []) : (l.getD 0 default).first = lo := by
  cases l with
  | nil => exact absurd rfl hne
  | cons s rest => exact h.1

theorem refine_match_pattern_bounds (va vb : List Frame) (dA dB : ℚ) (params : Parameters)
    (scenes : List FrameSpan) (basematch fullSearchArea : FrameSpan) (lo hi : Nat)
    (ht : params.frameRematchThreshold < 64) (htile : tiles lo hi scenes)
    (hne : scenes ≠ []) (hwf : hi ≤ va.length) (hva : va.length < 2 ^ 64)
    (hvb : vb.length < 2 ^ 64) :
    lo ≤ (refine_match va vb dA dB params scenes basematch fullSearchArea).1.first ∧
    (refine_match va vb dA dB params scenes basematch fullSearchArea).1.first +
      (refine_match va vb dA dB params scenes basematch fullSearchArea).1.count ≤ hi := by
  by_cases hlt : scenes.length < 3
  · by_cases h2 : scenes.length = 2
    · obtain ⟨a, b, rfl⟩ := List.length_eq_two.1 h2
      obtain ⟨h1a, h2a, h1b, h2b, h3b⟩ := htile
      simp only [FrameSpan.endOffset_def] at h1b h2a h2b
      have h3b2 : b.first + b.count = hi := h3b
      have hl : ([a, b] : List FrameSpan).length = 2 := rfl
      simp only [refine_match, hl, if_true, if_false]
      rw [if_pos (show (2 : Nat) < 3 by omega)]
      have hh : ([a, b] : List FrameSpan).headD default = a := rfl
      have hg : ([a, b] : List FrameSpan).getD 1 default = b := rfl
      rw [hh, hg]
      obtain ⟨c1, c2⟩ := refine_match_2scenes_pattern_bounds va vb dA dB params a b
        basematch fullSearchArea ht (by omega) (by omega) (by omega) (by omega) hva hvb
      exact ⟨by omega, by omega⟩
    · have h1 : scenes.length = 1 := by
        have : 1 ≤ scenes.length := by
          cases scenes with
          | nil => exact absurd rfl hne
          | cons s rest => simp
        omega
      obtain ⟨a, rfl⟩ := List.length_eq_one.1 h1
      obtain ⟨h1a, h2a, h3a⟩ := htile
      rw [FrameSpan.endOffset_def] at h2a
      have h3a2 : a.first + a.count = hi := h3a
      have hl : ([a] : List FrameSpan).length = 1 := rfl
      simp only [refine_match, hl, if_true, if_false]
      rw [if_pos (show (1 : Nat) < 3 by omega), if_neg (show ¬ (1 : Nat) = 2 by omega)]
      have hh : ([a] : List FrameSpan).headD default = a := rfl
      have hgl : ([a] : List FrameSpan).getLastD default = a := rfl
      rw [hh, hgl]
      have hm : merge va a a = ⟨a.first, a.first + a.count - a.first⟩ :=
        merge_eq va a a (le_refl _) (by omega) hva
      rw [hm]
      dsimp only
      exact ⟨by omega, by omega⟩
  · have hL : 3 ≤ scenes.length := by omega
    have hhead : scenes.headD default = scenes.getD 0 default := by
      cases scenes with
      | nil => rfl
      | cons s rest => rfl
    have hlastd : scenes.getLastD default = scenes.getD (scenes.length - 1) default :=
      spanGetLastD_eq_getD scenes default hne
    have hz : (scenes.getD 0 default).first = lo := tiles_getD_zero htile hne
    obtain ⟨hb01, hb02, hb03⟩ := tiles_getD_bounds scenes lo hi htile 0 (by omega)
    obtain ⟨hb11, hb12, hb13⟩ := tiles_getD_bounds scenes lo hi htile 1 (by omega)
    obtain ⟨hp1, hp2, hp3⟩ := tiles_getD_bounds scenes lo hi htile (scenes.length - 2)
      (by omega)
    obtain ⟨hl1, hl2, hl3⟩ := tiles_getD_bounds scenes lo hi htile (scenes.length - 1)
      (by omega)
    have h01 := tiles_getD_succ scenes lo hi htile 0 (by omega)
    rw [show (0 : Nat) + 1 = 1 from rfl] at h01
    have hps := tiles_getD_succ scenes lo hi htile (scenes.length - 2) (by omega)
    rw [show scenes.length - 2 + 1 = scenes.length - 1 from by omega] at hps
    have hlast := tiles_getD_last scenes lo hi htile hne
    have hmono := tiles_getD_mono scenes lo hi htile 1 (scenes.length - 1) (by omega)
      (by omega)
    have hmono0 := tiles_getD_mono scenes lo hi htile 0 (scenes.length - 1) (by omega)
      (by omega)
    obtain ⟨n1, hn11, hn10, hn1b, hcs1⟩ := compute_symetric_eq (scenes.getD 0 default)
      (scenes.getD 1 default) h01 hb03 hb13
    obtain ⟨n2, hn21, hn20, hn2b, hcs2⟩ := compute_symetric_eq
      (scenes.getD (scenes.length - 2) default) (scenes.getD (scenes.length - 1) default)
      hps hp3 hl3
    have hbp : merge va (scenes.getD 0 default) (scenes.getD (scenes.length - 1) default) =
        ⟨(scenes.getD 0 default).first,
          (scenes.getD (scenes.length - 1) default).first +
            (scenes.getD (scenes.length - 1) default).count -
            (scenes.getD 0 default).first⟩ :=
      merge_eq va _ _ hmono0 (by omega) hva
    simp only [refine_match, hhead, hlastd]
    rw [if_neg (show ¬ scenes.length < 3 by omega)]
    simp only [hcs1, hcs2, hbp, find_best_matching_area_ex_pattern, FrameSpan.startOffset,
      FrameSpan.size, FrameSpan.endOffset]
    have hvf : (scenes.getD 1 default).first - n1 + (n1 + n1) / 2 =
        (scenes.getD 1 default).first := by omega
    have hvl : (scenes.getD (scenes.length - 1) default).first - n2 + (n2 + n2) / 2 =
        (scenes.getD (scenes.length - 1) default).first := by omega
    rw [hvf, hvl]
    have hieq : (scenes.getD 0 default).first +
        ((scenes.getD (scenes.length - 1) default).first +
          (scenes.getD (scenes.length - 1) default).count -
          (scenes.getD 0 default).first) =
        (scenes.getD (scenes.length - 1) default).first +
          (scenes.getD (scenes.length - 1) default).count := by omega
    rw [hieq]
    set w1 := (find_best_matching_area_ex va vb
        (⟨(scenes.getD 1 default).first - n1, n1 + n1⟩ : FrameSpan)
        (basematch.left (number_of_frames_in_range (scenes.take 3)))).«match».first +
      (find_best_matching_area_ex va vb
        (⟨(scenes.getD 1 default).first - n1, n1 + n1⟩ : FrameSpan)
        (basematch.left (number_of_frames_in_range (scenes.take 3)))).«match».count / 2
      with hw1
    set w2 := (find_best_matching_area_ex va vb
        (⟨(scenes.getD (scenes.length - 1) default).first - n2, n2 + n2⟩ : FrameSpan)
        (basematch.right (number_of_frames_in_range
          (scenes.drop (scenes.length - 3))))).«match».first +
      (find_best_matching_area_ex va vb
        (⟨(scenes.getD (scenes.length - 1) default).first - n2, n2 + n2⟩ : FrameSpan)
        (basematch.right (number_of_frames_in_range
          (scenes.drop (scenes.length - 3))))).«match».count / 2
      with hw2
    set sp := ((usub w2 w1 : Nat) : ℚ) * dB /
      (((usub (scenes.getD (scenes.length - 1) default).first
        (scenes.getD 1 default).first : Nat) : ℚ) * dA) with hsp
    set re := find_match_end va vb (scenes.getD (scenes.length - 1) default).first w2 sp
      ((scenes.getD (scenes.length - 1) default).first +
        (scenes.getD (scenes.length - 1) default).count)
      (fullSearchArea.first + fullSearchArea.count) params with hre
    obtain ⟨f1, f2⟩ := find_match_end_bounds va vb
      (scenes.getD (scenes.length - 1) default).first w2 sp
      ((scenes.getD (scenes.length - 1) default).first +
        (scenes.getD (scenes.length - 1) default).count)
      (fullSearchArea.first + fullSearchArea.count) params ht (by omega) hva hvb (by omega)
    rw [← hre] at f1 f2
    have hmv1 : (⟨(scenes.getD 0 default).first,
        (scenes.getD (scenes.length - 1) default).first +
          (scenes.getD (scenes.length - 1) default).count -
          (scenes.getD 0 default).first⟩ : FrameSpan).moveEndOffset re.1 =
        ⟨(scenes.getD 0 default).first, re.1 - (scenes.getD 0 default).first⟩ := by
      rw [moveEndOffset_def]
      dsimp only
      rw [usub_of_le (by omega) (by omega)]
    rw [hmv1]
    simp only [FrameSpan.startOffset]
    have hu1 : usub (scenes.getD 1 default).first 1 =
        (scenes.getD 1 default).first - 1 := usub_of_le (by omega) (by omega)
    rw [hu1]
    set rs := find_match_end_backward va vb ((scenes.getD 1 default).first - 1) (usub w1 1)
      sp (scenes.getD 0 default).first fullSearchArea.first params with hrs
    obtain ⟨g1, g2⟩ := find_match_end_backward_bounds va vb
      ((scenes.getD 1 default).first - 1) (usub w1 1) sp (scenes.getD 0 default).first
      fullSearchArea.first params ht (by omega) hva hvb (by omega) (by omega)
    rw [← hrs] at g1 g2
    have hmv2 : (⟨(scenes.getD 0 default).first,
        re.1 - (scenes.getD 0 default).first⟩ : FrameSpan).moveStartOffsetTo rs.1 =
        ⟨rs.1, re.1 - rs.1⟩ := by
      rw [moveStartOffsetTo_def]
      dsimp only
      have hx : (scenes.getD 0 default).first +
          (re.1 - (scenes.getD 0 default).first) = re.1 := by omega
      rw [hx, usub_of_le (by omega) (by omega)]
    rw [hmv2]
    dsimp only
    exact ⟨by omega, by omega⟩

theorem extend_match_append (va vb : List Frame) (params : Parameters) (saEnd : Nat) :
    ∀ (l : List FrameSpan) (prev : FrameSpan × FrameSpan),
      (extend_match va vb params saEnd l prev).1 ++
        (extend_match va vb params saEnd l prev).2.1 = l := by
  intro l
  induction l with
  | nil => intro prev; rfl
  | cons cur rest ih =>
    intro prev
    simp only [extend_match]
    split
    · rfl
    · split
      · rfl
      · rw [List.cons_append, ih]

theorem fbsmLoop_pattern_bounds (va vb : List Frame) (dA dB : ℚ) (params : Parameters)
    (searchArea : FrameSpan) (seglo seghi : Nat)
    (ht : params.frameRematchThreshold < 64) (hwf : seghi ≤ va.length)
    (hva : va.length < 2 ^ 64) (hvb : vb.length < 2 ^ 64) :
    ∀ fuel (l : List FrameSpan) (result : FrameSpan × FrameSpan) (lo : Nat),
      tiles lo seghi l → seglo ≤ lo →
      (0 < result.1.count → seglo ≤ result.1.first ∧
        result.1.first + result.1.count ≤ seghi) →
      (0 < (fbsmLoop va vb dA dB params searchArea fuel l result).1.count →
        seglo ≤ (fbsmLoop va vb dA dB params searchArea fuel l result).1.first ∧
        (fbsmLoop va vb dA dB params searchArea fuel l result).1.first +
          (fbsmLoop va vb dA dB params searchArea fuel l result).1.count ≤ seghi) := by
  intro fuel
  induction fuel with
  | zero => intro l result lo _ _ hres; exact hres
  | succ fuel ih =>
    intro l result lo htl hlo hres
    cases l with
    | nil => exact hres
    | cons cur rest =>
      obtain ⟨hc1, hc2, hc3⟩ := htl
      have hc2n : lo < cur.first + cur.count := by
        rw [FrameSpan.endOffset_def] at hc2
        exact hc2
      simp only [fbsmLoop]
      split
      · exact hres
      · split
        · exact ih rest result cur.endOffset hc3
            (by rw [FrameSpan.endOffset_def]; omega) hres
        · set e := extend_match va vb params searchArea.endOffset rest
            ((fbsm_candidate va vb searchArea cur rest).pattern,
             (fbsm_candidate va vb searchArea cur rest).«match») with he
          have happ := extend_match_append va vb params searchArea.endOffset rest
            ((fbsm_candidate va vb searchArea cur rest).pattern,
             (fbsm_candidate va vb searchArea cur rest).«match»)
          rw [← he] at happ
          have hc3e : tiles cur.endOffset seghi (e.1 ++ e.2.1) := by
            rw [happ]
            exact hc3
          obtain ⟨mid, hm1, hm2⟩ := tiles_append_split e.1 e.2.1 cur.endOffset seghi hc3e
          have hmid : mid ≤ seghi := tiles_lo_le_hi e.2.1 _ _ hm2
          have hcm : cur.endOffset ≤ mid := tiles_lo_le_hi e.1 _ _ hm1
          rw [FrameSpan.endOffset_def] at hcm
          have htchunk : tiles lo mid (cur :: e.1) := ⟨hc1, by
            rw [FrameSpan.endOffset_def]
            omega, hm1⟩
          have hrb := refine_match_pattern_bounds va vb dA dB params (cur :: e.1)
          apply ih e.2.1 _ mid hm2 (by omega)
          intro hpos
          revert hpos
          split
          · intro _
            constructor
            · exact le_trans hlo
                (hrb _ searchArea lo mid ht htchunk (by simp) (by omega) hva hvb).1
            · exact le_trans
                (hrb _ searchArea lo mid ht htchunk (by simp) (by omega) hva hvb).2 hmid
          · intro hpos
            exact hres hpos

theorem find_best_subspan_match_bounds (va vb : List Frame) (dA dB : ℚ)
    (params : Parameters) (seg searchArea : FrameSpan)
    (ht : params.frameRematchThreshold < 64)
    (hwf : seg.first + seg.count ≤ va.length) (hva : va.length < 2 ^ 64)
    (hvb : vb.length < 2 ^ 64)
    (hpos : 0 < (find_best_subspan_match va vb dA dB params seg searchArea).1.count) :
    seg.first ≤ (find_best_subspan_match va vb dA dB params seg searchArea).1.first ∧
    (find_best_subspan_match va vb dA dB params seg searchArea).1.first +
      (find_best_subspan_match va vb dA dB params seg searchArea).1.count ≤
      seg.first + seg.count := by
  have htiles := split_at_scframes_tiles va seg hwf
  simp only [find_best_subspan_match] at hpos ⊢
  exact fbsmLoop_pattern_bounds va vb dA dB params searchArea seg.first
    (seg.first + seg.count) ht hwf hva hvb
    ((split_at_scframes va seg).length + 1) (split_at_scframes va seg)
    (default, default) seg.first htiles (le_refl _)
    (fun h => absurd h (by decide)) hpos

theorem cppRound_mono {x y : ℚ} (h : x ≤ y) : cppRound x ≤ cppRound y := by
  unfold cppRound
  by_cases hx : 0 ≤ x <;> by_cases hy : 0 ≤ y
  · rw [if_pos hx, if_pos hy]
    exact Int.floor_le_floor (by linarith)
  · exact absurd (le_trans hx h) hy
  · rw [if_neg hx, if_pos hy]
    have hx2 : x < 0 := not_le.mp hx
    have h1 : (0 : Int) ≤ ⌊(1 : ℚ) / 2 - x⌋ := Int.le_floor.mpr (by push_cast; linarith)
    have h2 : (0 : Int) ≤ ⌊y + 1 / 2⌋ := Int.le_floor.mpr (by push_cast; linarith)
    omega
  · rw [if_neg hx, if_neg hy]
    exact neg_le_neg (Int.floor_le_floor (by linarith))

theorem get_nth_frame_pts_mono (video : List Frame)
    (hs : ∀ i j, i ≤ j → j < video.length →
      (video.getD i default).pts ≤ (video.getD j default).pts)
    {n m : Nat} (h : n ≤ m) : get_nth_frame_pts video n ≤ get_nth_frame_pts video m := by
  unfold get_nth_frame_pts
  by_cases hm : m < video.length
  · rw [if_pos (by omega), if_pos hm]
    exact hs n m h hm
  · rw [if_neg hm]
    by_cases hn : n < video.length
    · rw [if_pos hn]
      have hnil : video ≠ [] := by
        intro he
        rw [he] at hn
        simp at hn
      rw [getLastD_eq_getD video default hnil]
      have := hs n (video.length - 1) (by omega) (by omega)
      omega
    · rw [if_neg hn]

theorem pts_time_mono (video : List Frame) (delta : ℚ) (hd : 0 ≤ delta)
    (hs : ∀ i j, i ≤ j → j < video.length →
      (video.getD i default).pts ≤ (video.getD j default).pts)
    {n m : Nat} (h : n ≤ m) :
    cppRound ((get_nth_frame_pts video n : ℚ) * delta * 1000) ≤
    cppRound ((get_nth_frame_pts video m : ℚ) * delta * 1000) := by
  apply cppRound_mono
  have h1 := get_nth_frame_pts_mono video hs h
  have h2 : ((get_nth_frame_pts video n : Int) : ℚ) ≤
      ((get_nth_frame_pts video m : Int) : ℚ) := by exact_mod_cast h1
  exact mul_le_mul_of_nonneg_right (mul_le_mul_of_nonneg_right h2 hd) (by norm_num)

theorem find_matches_loop_mem (va vb : List Frame) (dA dB : ℚ) (params : Parameters)
    (ht : params.frameRematchThreshold < 64) (hva : va.length < 2 ^ 64)
    (hvb : vb.length < 2 ^ 64) :
    ∀ (segs : List FrameSpan) (sa : FrameSpan),
      (∀ s ∈ segs, s.first + s.count ≤ va.length) →
      ∀ m ∈ find_matches_loop va vb dA dB params segs sa,
        ∃ seg ∈ segs, ∃ sp : FrameSpan,
          seg.first ≤ sp.first ∧ sp.first + sp.count ≤ seg.first + seg.count ∧
          0 < sp.count ∧ m.a = to_timesegment va dA sp := by
  intro segs
  induction segs with
  | nil => intro sa _ m hm; exact absurd hm (List.not_mem_nil m)
  | cons seg rest ih =>
    intro sa hwf m hm
    simp only [find_matches_loop] at hm
    split at hm
    · rename_i hc
      rcases List.mem_cons.1 hm with he | hm2
      · obtain ⟨b1, b2⟩ := find_best_subspan_match_bounds va vb dA dB params seg sa ht
          (hwf seg (List.mem_cons_self seg rest)) hva hvb hc
        exact ⟨seg, List.mem_cons_self seg rest,
          (find_best_subspan_match va vb dA dB params seg sa).1, b1, b2, hc,
          by rw [he]; rfl⟩
      · obtain ⟨seg', hseg', hrest⟩ := ih _
          (fun s hs => hwf s (List.mem_cons_of_mem _ hs)) m hm2
        exact ⟨seg', List.mem_cons_of_mem _ hseg', hrest⟩
    · obtain ⟨seg', hseg', hrest⟩ := ih sa
        (fun s hs => hwf s (List.mem_cons_of_mem _ hs)) m hm
      exact ⟨seg', List.mem_cons_of_mem _ hseg', hrest⟩

theorem find_matches_loop_chains (va vb : List Frame) (dA dB : ℚ) (params : Parameters)
    (ht : params.frameRematchThreshold < 64) (hva : va.length < 2 ^ 64)
    (hvb : vb.length < 2 ^ 64) (hd : 0 ≤ dA)
    (hs : ∀ i j, i ≤ j → j < va.length →
      (va.getD i default).pts ≤ (va.getD j default).pts) :
    ∀ (segs : List FrameSpan) (sa : FrameSpan),
      (∀ s ∈ segs, s.first + s.count ≤ va.length) →
      List.Pairwise (fun s t : FrameSpan => s.first + s.count ≤ t.first) segs →
      List.Chain' (fun m m' : VideoMatch => m.a.«end» ≤ m'.a.start)
        (find_matches_loop va vb dA dB params segs sa) ∧
      List.Chain' (fun m m' : VideoMatch => m.a.start ≤ m'.a.start)
        (find_matches_loop va vb dA dB params segs sa) := by
  intro segs
  induction segs with
  | nil => intro sa _ _; exact ⟨List.chain'_nil, List.chain'_nil⟩
  | cons seg rest ih =>
    intro sa hwf hpw
    obtain ⟨hpw1, hpw2⟩ := List.pairwise_cons.1 hpw
    have hwfr : ∀ s ∈ rest, s.first + s.count ≤ va.length :=
      fun s hs => hwf s (List.mem_cons_of_mem _ hs)
    simp only [find_matches_loop]
    split
    · rename_i hc
      obtain ⟨b1, b2⟩ := find_best_subspan_match_bounds va vb dA dB params seg sa ht
        (hwf seg (List.mem_cons_self seg rest)) hva hvb hc
      have hih := ih (mkFrameSpan vb
        (find_best_subspan_match va vb dA dB params seg sa).2.endOffset (2 ^ 64 - 1))
        hwfr hpw2
      have hhd : ∀ b ∈ (find_matches_loop va vb dA dB params rest
          (mkFrameSpan vb (find_best_subspan_match va vb dA dB params seg sa).2.endOffset
            (2 ^ 64 - 1))).head?,
          ∃ seg' ∈ rest, ∃ sp' : FrameSpan, seg'.first ≤ sp'.first ∧
            sp'.first + sp'.count ≤ seg'.first + seg'.count ∧ 0 < sp'.count ∧
            b.a = to_timesegment va dA sp' := by
        intro b hb
        exact find_matches_loop_mem va vb dA dB params ht hva hvb rest _ hwfr b
          (List.mem_of_mem_head? hb)
      refine ⟨List.chain'_cons'.mpr ⟨?_, hih.1⟩, List.chain'_cons'.mpr ⟨?_, hih.2⟩⟩
      · intro b hb
        obtain ⟨seg', hseg', sp', h1, h2, h3, h4⟩ := hhd b hb
        have hba : b.a.start =
            cppRound ((get_nth_frame_pts va sp'.first : ℚ) * dA * 1000) := by
          rw [h4]
          rfl
        have hma : (to_match va vb dA dB
            (find_best_subspan_match va vb dA dB params seg sa)).a.«end» =
            cppRound ((get_nth_frame_pts va
              ((find_best_subspan_match va vb dA dB params seg sa).1.first +
                (find_best_subspan_match va vb dA dB params seg sa).1.count) : ℚ) *
              dA * 1000) := rfl
        rw [hba, hma]
        exact pts_time_mono va dA hd hs (by have := hpw1 seg' hseg'; omega)
      · intro b hb
        obtain ⟨seg', hseg', sp', h1, h2, h3, h4⟩ := hhd b hb
        have hba : b.a.start =
            cppRound ((get_nth_frame_pts va sp'.first : ℚ) * dA * 1000) := by
          rw [h4]
          rfl
        have hma : (to_match va vb dA dB
            (find_best_subspan_match va vb dA dB params seg sa)).a.start =
            cppRound ((get_nth_frame_pts va
              (find_best_subspan_match va vb dA dB params seg sa).1.first : ℚ) *
              dA * 1000) := rfl
        rw [hba, hma]
        exact pts_time_mono va dA hd hs (by have := hpw1 seg' hseg'; omega)
    · exact ih sa hwfr hpw2

/-- C3: every video-match list returned by the orchestrator
(`find_matches`, matchalgo.cpp lines 1164-1195) is sorted ascending by
`a.start` with consecutive primary-side matches non-overlapping
(`m.a.end ≤ m'.a.start`); and the secondary-video search cursor is
monotonic: when a segment yields a match the loop continues on the
remaining segments with a cursor whose every index lies at or past the
end of that match in video B, and the cursor is left unchanged when a
segment yields no match.  Hypotheses: the rematch threshold is below
64 (default 16; at 64 or above `find_best_match` can return
`startOffset + size_t(-1)` and the C++ loops break down), the primary
catalog's pts are sorted ascending, its frame delta is non-negative,
the searched primary span lies inside the catalog, and both catalogs
hold fewer than `2^62` frames (so the `size_t` sums of the embedding
match the wrapping C++ values exactly). -/
theorem C3_find_matches_sorted_cursor_monotonic (va vb : List Frame) (dA dB : ℚ)
    (params : Parameters) (a b : FrameSpan)
    (hthr : params.frameRematchThreshold < 64)
    (hsorted : ∀ i j, i ≤ j → j < va.length →
      (va.getD i default).pts ≤ (va.getD j default).pts)
    (hdA : 0 ≤ dA)
    (hwa : a.first + a.count ≤ va.length)
    (hva : va.length < 2 ^ 62) (hvb : vb.length < 2 ^ 62) :
    (List.Chain' (fun m m' : VideoMatch => m.a.start ≤ m'.a.start)
        (find_matches va vb dA dB params a b) ∧
      List.Chain' (fun m m' : VideoMatch => m.a.«end» ≤ m'.a.start)
        (find_matches va vb dA dB params a b)) ∧
    (∀ (sa seg : FrameSpan) (rest : List FrameSpan),
      (0 < (find_best_subspan_match va vb dA dB params seg sa).1.count →
        find_matches_loop va vb dA dB params (seg :: rest) sa =
          to_match va vb dA dB (find_best_subspan_match va vb dA dB params seg sa) ::
            find_matches_loop va vb dA dB params rest
              (mkFrameSpan vb
                (find_best_subspan_match va vb dA dB params seg sa).2.endOffset
                (2 ^ 64 - 1)) ∧
        ∀ k : Nat,
          (mkFrameSpan vb
            (find_best_subspan_match va vb dA dB params seg sa).2.endOffset
            (2 ^ 64 - 1)).first ≤ k →
          k < (mkFrameSpan vb
            (find_best_subspan_match va vb dA dB params seg sa).2.endOffset
            (2 ^ 64 - 1)).first + (mkFrameSpan vb
            (find_best_subspan_match va vb dA dB params seg sa).2.endOffset
            (2 ^ 64 - 1)).count →
          (find_best_subspan_match va vb dA dB params seg sa).2.endOffset ≤ k) ∧
      ((find_best_subspan_match va vb dA dB params seg sa).1.count = 0 →
        find_matches_loop va vb dA dB params (seg :: rest) sa =
          find_matches_loop va vb dA dB params rest sa)) := by
  have hva64 : va.length < 2 ^ 64 := lt_trans hva (by norm_num)
  have hvb64 : vb.length < 2 ^ 64 := lt_trans hvb (by norm_num)
  constructor
  · have htiles := extract_segments_tiles_gen va a hwa
    have hpw := tiles_pairwise _ _ _ htiles
    have hwfs : ∀ s ∈ extract_segments va a, s.first + s.count ≤ va.length := by
      intro s hsm
      have := tiles_mem_bounds _ _ _ htiles s hsm
      omega
    have hch := find_matches_loop_chains va vb dA dB params hthr hva64 hvb64 hdA hsorted
      (extract_segments va a) b hwfs hpw
    exact ⟨hch.2, hch.1⟩
  · intro sa seg rest
    refine ⟨fun hc => ⟨?_, ?_⟩, fun hz => ?_⟩
    · simp only [find_matches_loop]
      rw [if_pos hc]
    · intro k h1 h2
      rw [mkFrameSpan_first] at h1
      rw [mkFrameSpan_first, mkFrameSpan_count] at h2
      omega
    · simp only [find_matches_loop]
      rw [if_neg (by omega)]

theorem C3_find_matches_sorted_cursor_monotonic_witness :
    (({} : Parameters).frameRematchThreshold < 64 ∧
      (∀ i j, i ≤ j → j < ([frameZero] : List Frame).length →
        (([frameZero] : List Frame).getD i default).pts ≤
          (([frameZero] : List Frame).getD j default).pts) ∧
      (0 : ℚ) ≤ 1 ∧
      (⟨0, 1⟩ : FrameSpan).first + (⟨0, 1⟩ : FrameSpan).count ≤
        ([frameZero] : List Frame).length ∧
      ([frameZero] : List Frame).length < 2 ^ 62 ∧
      ([] : List Frame).length < 2 ^ 62) ∧
    ((List.Chain' (fun m m' : VideoMatch => m.a.start ≤ m'.a.start)
        (find_matches [frameZero] [] 1 1 {} ⟨0, 1⟩ ⟨0, 0⟩) ∧
      List.Chain' (fun m m' : VideoMatch => m.a.«end» ≤ m'.a.start)
        (find_matches [frameZero] [] 1 1 {} ⟨0, 1⟩ ⟨0, 0⟩)) ∧
    (∀ (sa seg : FrameSpan) (rest : List FrameSpan),
      (0 < (find_best_subspan_match [frameZero] [] 1 1 {} seg sa).1.count →
        find_matches_loop [frameZero] [] 1 1 {} (seg :: rest) sa =
          to_match [frameZero] [] 1 1
              (find_best_subspan_match [frameZero] [] 1 1 {} seg sa) ::
            find_matches_loop [frameZero] [] 1 1 {} rest
              (mkFrameSpan []
                (find_best_subspan_match [frameZero] [] 1 1 {} seg sa).2.endOffset
                (2 ^ 64 - 1)) ∧
        ∀ k : Nat,
          (mkFrameSpan []
            (find_best_subspan_match [frameZero] [] 1 1 {} seg sa).2.endOffset
            (2 ^ 64 - 1)).first ≤ k →
          k < (mkFrameSpan []
            (find_best_subspan_match [frameZero] [] 1 1 {} seg sa).2.endOffset
            (2 ^ 64 - 1)).first + (mkFrameSpan []
            (find_best_subspan_match [frameZero] [] 1 1 {} seg sa).2.endOffset
            (2 ^ 64 - 1)).count →
          (find_best_subspan_match [frameZero] [] 1 1 {} seg sa).2.endOffset ≤ k) ∧
      ((find_best_subspan_match [frameZero] [] 1 1 {} seg sa).1.count = 0 →
        find_matches_loop [frameZero] [] 1 1 {} (seg :: rest) sa =
          find_matches_loop [frameZero] [] 1 1 {} rest sa))) :=
  ⟨⟨by decide,
    by
      intro i j h1 h2
      have h3 : j < 1 := by simpa using h2
      have hi : i = 0 := by omega
      have hj : j = 0 := by omega
      rw [hi, hj],
    by norm_num,
    by decide,
    by norm_num,
    by norm_num⟩,
   C3_find_matches_sorted_cursor_monotonic [frameZero] [] 1 1 {} ⟨0, 1⟩ ⟨0, 0⟩
     (by decide)
     (by
       intro i j h1 h2
       have h3 : j < 1 := by simpa using h2
       have hi : i = 0 := by omega
       have hj : j = 0 := by omega
       rw [hi, hj])
     (by norm_num)
     (by decide)
     (by norm_num)
     (by norm_num)⟩

end Digidub
